import Mathlib

/-!
SystemReward.

A shallow embedding of the `SystemReward` contract whose deployed code is the
constant `SystemrewardBin` of `abi/systemreward/SystemReward.go` (the Go file
is the generated binding; every method of it forwards to the contract).

The contract was compiled with checked arithmetic.  Its storage is

* slot 0: `alreadyInit`,
* slot 1: a constant written by the constructor (the value 10), never read,
* slot 2: `rewardMapping`,
* slots 3, 4, 5: the three addresses given to `init`,
* slots 6, 7, 8: the same three addresses again, used as the callees of the
  static calls to the validator set, the stake pool and the validator pool.

Entry points that the ABI declares `nonpayable` are entered with no attached
value (the dispatcher turns such a call down before the body runs), so they
take no value here.  A call that reverts leaves storage and balance as they
were: `transact` and `view` below restore the state the call started from.

The answers of the three collaborators are read with static calls, which
cannot write, and the outgoing payments are plain transfers with the 2300 gas
stipend; the answers are therefore the same throughout one call and are given
by an `Env`.
-/

namespace SystemReward

/-- An account address (a 160-bit word). -/
abbrev Address := Nat

/-- The largest 256-bit word. -/
def MAX_UINT256 : Nat := 2 ^ 256 - 1

/-- The ways a call can revert.  The first six carry a revert string in the
bytecode; `Panic` is the checked-arithmetic fault (code `0x11` for overflow
and underflow, `0x12` for division by zero); `CallFailed` is a static call to
a collaborator that has no code, reverts or returns malformed data;
`TransferFailed` is a payment that the recipient or the balance turns down. -/
inductive Error where
  /-- Revert string: the contract not init yet. -/
  | NotInitialized
  /-- Revert string: the contract already init. -/
  | AlreadyInitialized
  /-- Revert string: can only be called from the validator set contract. -/
  | Unauthorized
  /-- Revert string: can't add reward to a non-active validator. -/
  | InactiveValidator
  /-- Revert string: can't add reward with 0 value. -/
  | ZeroValueDeposit
  /-- Revert string: can't distribute reward, not enough fund in the account, for some reason... -/
  | InsufficientFunds
  | Panic (code : Nat)
  | CallFailed
  | TransferFailed
  deriving DecidableEq

deriving instance DecidableEq for Except

/-- The four words answered by `currentValidatorSet(uint256)` (selector
`0x6969a25c`): an address, a 256-bit number, a three-valued status and a
flag. -/
structure ValidatorRecord where
  consensusAddress : Address
  stake : Nat
  status : Nat
  jailed : Bool
  deriving DecidableEq

/-- Storage and balance of the contract. -/
structure State where
  alreadyInit : Bool
  slot1 : Nat
  rewardMapping : Address → Nat
  BKCValidatorSetAddress : Address
  StakePoolAddress : Address
  ValidatorPoolAddress : Address
  validatorSet : Address
  stakePool : Address
  validatorPool : Address
  balance : Nat

/-- The answers of the outside world during one call.  The first argument of
every query is the callee, the address the static call is sent to; `none`
is a failed call. -/
structure Env where
  /-- Address of the contract itself. -/
  self : Address
  /-- Selector `0x74de1669`, asked of the validator set: number of records. -/
  validatorSetLength : Address → Option Nat
  /-- Selector `0x6969a25c`, `currentValidatorSet(uint256)`. -/
  currentValidatorSet : Address → Nat → Option ValidatorRecord
  /-- Selector `0xad3c9da6`, `currentValidatorSetMap(address)`. -/
  currentValidatorSetMap : Address → Address → Option Nat
  /-- Selector `0x322923b9`, asked of the validator pool. -/
  getTotalPowerExcludeUnbonding : Address → Address → Option Nat
  /-- Selector `0xd7dc81cd`, asked of the validator pool. -/
  getTotalPower : Address → Address → Option Nat
  /-- Selector `0x68e76346`, `getDelegators(address)`, asked of the stake pool. -/
  getDelegators : Address → Address → Option (List Address)
  /-- Selector `0xf9353fe0`, asked of the stake pool with a delegator and a
  validator. -/
  delegatorPower : Address → Address → Address → Option Nat
  /-- Whether the recipient takes a plain transfer of the given amount. -/
  accepts : Address → Nat → Bool

/-- One outgoing payment. -/
structure Transfer where
  recipient : Address
  amount : Nat
  deriving DecidableEq

/-- What a call leaves behind: its result, the state after it and the payments
it made. -/
structure Outcome (α : Type) where
  result : Except Error α
  state : State
  transfers : List Transfer

/-- Sum of the amounts of a list of payments. -/
def totalPaid (log : List Transfer) : Nat :=
  (log.map Transfer.amount).sum

/-- Checked addition of two words. -/
def checkedAdd (a b : Nat) : Except Error Nat :=
  if a > MAX_UINT256 - b then .error (.Panic 0x11) else .ok (a + b)

/-- Checked subtraction of two words. -/
def checkedSub (a b : Nat) : Except Error Nat :=
  if a < b then .error (.Panic 0x11) else .ok (a - b)

/-- Checked multiplication of two words. -/
def checkedMul (a b : Nat) : Except Error Nat :=
  if a ≠ 0 ∧ b > MAX_UINT256 / a then .error (.Panic 0x11) else .ok (a * b)

/-- Checked division of two words. -/
def checkedDiv (a b : Nat) : Except Error Nat :=
  if b = 0 then .error (.Panic 0x12) else .ok (a / b)

/-- Result of a static call to a collaborator. -/
def staticCall {α : Type} (answer : Option α) : Except Error α :=
  match answer with
  | some a => .ok a
  | none => .error .CallFailed

/-- A call that may write: the attached value is credited first, then the body
runs; a revert restores the state the call started from. -/
def transact (s : State) (value : Nat)
    (body : State → Except Error (State × List Transfer)) : Outcome Unit :=
  match body { s with balance := s.balance + value } with
  | .ok (s', log) => ⟨.ok (), s', log⟩
  | .error e => ⟨.error e, s, []⟩

/-- A read-only call. -/
def view {α : Type} (s : State) (body : State → Except Error α) : Outcome α :=
  ⟨body s, s, []⟩

/-- The contract right after deployment: the constructor writes 10 to slot 1
and takes no value. -/
def deployed : State :=
  { alreadyInit := false, slot1 := 10, rewardMapping := fun _ => 0,
    BKCValidatorSetAddress := 0, StakePoolAddress := 0, ValidatorPoolAddress := 0,
    validatorSet := 0, stakePool := 0, validatorPool := 0, balance := 0 }

/-- Body of `init(address,address,address)`. -/
def initBody (BKCValidatorSetAddress StakePoolAddress ValidatorPoolAddress : Address)
    (s : State) : Except Error (State × List Transfer) :=
  if s.alreadyInit then .error .AlreadyInitialized
  else .ok ({ s with
      BKCValidatorSetAddress := BKCValidatorSetAddress,
      StakePoolAddress := StakePoolAddress,
      ValidatorPoolAddress := ValidatorPoolAddress,
      validatorSet := BKCValidatorSetAddress,
      stakePool := StakePoolAddress,
      validatorPool := ValidatorPoolAddress,
      alreadyInit := true }, [])

/-- Entry point `init` (selector `0x184b9559`), nonpayable, open to any sender. -/
def init (s : State) (_sender : Address)
    (BKCValidatorSetAddress StakePoolAddress ValidatorPoolAddress : Address) : Outcome Unit :=
  transact s 0 (initBody BKCValidatorSetAddress StakePoolAddress ValidatorPoolAddress)

/-- Body of `addReward(address)`: the checks run in this order. -/
def addRewardBody (env : Env) (value : Nat) (consensusAddress : Address)
    (s : State) : Except Error (State × List Transfer) :=
  if !s.alreadyInit then .error .NotInitialized
  else
    match staticCall (env.currentValidatorSetMap s.validatorSet consensusAddress) with
    | .error e => .error e
    | .ok index =>
      if !(index > 0) then .error .InactiveValidator
      else if !(value > 0) then .error .ZeroValueDeposit
      else
        match checkedMul value 90 with
        | .error e => .error e
        | .ok scaled =>
          match checkedDiv scaled 100 with
          | .error e => .error e
          | .ok credit =>
            match checkedAdd (s.rewardMapping consensusAddress) credit with
            | .error e => .error e
            | .ok accrued =>
              .ok ({ s with rewardMapping :=
                      Function.update s.rewardMapping consensusAddress accrued }, [])

/-- Entry point `addReward` (selector `0x9c9b2e21`), payable, open to any
sender. -/
def addReward (env : Env) (s : State) (_sender : Address) (consensusAddress : Address)
    (value : Nat) : Outcome Unit :=
  transact s value (addRewardBody env value consensusAddress)

/-- Body of `fund()`. -/
def fundBody (s : State) : Except Error (State × List Transfer) :=
  if !s.alreadyInit then .error .NotInitialized else .ok (s, [])

/-- Entry point `fund` (selector `0xb60d4288`), payable, open to any sender. -/
def fund (s : State) (_sender : Address) (value : Nat) : Outcome Unit :=
  transact s value fundBody

/-- A plain transfer `payable(recipient).transfer(amount)`: it fails when the
balance is short, when the recipient is the contract itself (its dispatcher
has no fallback) and when the recipient turns it down. -/
def transfer (env : Env) (s : State) (recipient : Address) (amount : Nat) :
    Except Error State :=
  if s.balance < amount then .error .TransferFailed
  else if recipient = env.self then .error .TransferFailed
  else if !env.accepts recipient amount then .error .TransferFailed
  else .ok { s with balance := s.balance - amount }

/-- First loop of `distributeReward`: adds up the accrued reward of the
validator of every record, in the order of the indices. -/
def sumAccrued (env : Env) (s : State) : List Nat → Nat → Except Error Nat
  | [], total => .ok total
  | i :: rest, total =>
    match staticCall (env.currentValidatorSet s.validatorSet i) with
    | .error e => .error e
    | .ok r =>
      match checkedAdd total (s.rewardMapping r.consensusAddress) with
      | .error e => .error e
      | .ok total1 => sumAccrued env s rest total1

/-- Loop over the delegators of a validator inside the internal payout
function: each delegator is paid `power * accrued / totalPower`. -/
def payDelegators (env : Env) (consensusAddress : Address) (totalPower : Nat) :
    List Address → State → List Transfer → Except Error (State × List Transfer)
  | [], s, log => .ok (s, log)
  | d :: rest, s, log =>
    match staticCall (env.delegatorPower s.stakePool d consensusAddress) with
    | .error e => .error e
    | .ok power =>
      match checkedMul power (s.rewardMapping consensusAddress) with
      | .error e => .error e
      | .ok scaled =>
        match checkedDiv scaled totalPower with
        | .error e => .error e
        | .ok amount =>
          match transfer env s d amount with
          | .error e => .error e
          | .ok s1 =>
            payDelegators env consensusAddress totalPower rest s1 (log ++ [⟨d, amount⟩])

/-- The internal payout function at code offset `0x1244`: it looks up the
record of the validator through its index, pays the validator
`stake * accrued / totalPower` and then pays its delegators. -/
def distributeRewardTo (env : Env) (s : State) (consensusAddress : Address) :
    Except Error (State × List Transfer) :=
  if !s.alreadyInit then .error .NotInitialized
  else
    match staticCall (env.currentValidatorSetMap s.validatorSet consensusAddress) with
    | .error e => .error e
    | .ok index =>
      match checkedSub index 1 with
      | .error e => .error e
      | .ok position =>
        match staticCall (env.currentValidatorSet s.validatorSet position) with
        | .error e => .error e
        | .ok r =>
          match staticCall (env.getTotalPowerExcludeUnbonding s.validatorPool consensusAddress) with
          | .error e => .error e
          | .ok totalPower =>
            match checkedMul r.stake (s.rewardMapping consensusAddress) with
            | .error e => .error e
            | .ok scaled =>
              match checkedDiv scaled totalPower with
              | .error e => .error e
              | .ok amount =>
                match transfer env s consensusAddress amount with
                | .error e => .error e
                | .ok s1 =>
                  match staticCall (env.getDelegators s.stakePool consensusAddress) with
                  | .error e => .error e
                  | .ok delegators =>
                    payDelegators env consensusAddress totalPower delegators s1
                      [⟨consensusAddress, amount⟩]

/-- Second loop of `distributeReward`: a validator with a positive accrued
reward is paid through `distributeRewardTo` and its entry is then set to 0;
a validator with no accrued reward is passed over. -/
def payoutLoop (env : Env) :
    List Nat → State → List Transfer → Except Error (State × List Transfer)
  | [], s, log => .ok (s, log)
  | i :: rest, s, log =>
    match staticCall (env.currentValidatorSet s.validatorSet i) with
    | .error e => .error e
    | .ok r =>
      if s.rewardMapping r.consensusAddress > 0 then
        match distributeRewardTo env s r.consensusAddress with
        | .error e => .error e
        | .ok (s1, paid) =>
          payoutLoop env rest
            { s1 with rewardMapping := Function.update s1.rewardMapping r.consensusAddress 0 }
            (log ++ paid)
      else payoutLoop env rest s log

/-- Body of `distributeReward()`.  Both loops ask the validator set for its
length before every round; the answer is the same each time, so it is asked
once per loop here. -/
def distributeRewardBody (env : Env) (sender : Address) (s : State) :
    Except Error (State × List Transfer) :=
  if !s.alreadyInit then .error .NotInitialized
  else if !(sender = s.BKCValidatorSetAddress) then .error .Unauthorized
  else
    match staticCall (env.validatorSetLength s.validatorSet) with
    | .error e => .error e
    | .ok n =>
      match sumAccrued env s (List.range n) 0 with
      | .error e => .error e
      | .ok total =>
        if s.balance < total then .error .InsufficientFunds
        else payoutLoop env (List.range n) s []

/-- Entry point `distributeReward` (selector `0x8f73c5ae`), nonpayable. -/
def distributeReward (env : Env) (s : State) (sender : Address) : Outcome Unit :=
  transact s 0 (distributeRewardBody env sender)

/-- First loop of `AllocateJailValidatorReward`: adds up the power (unbonding
excluded) of every record whose flag is not set. -/
def sumActivePower (env : Env) (s : State) : List Nat → Nat → Except Error Nat
  | [], total => .ok total
  | i :: rest, total =>
    match staticCall (env.currentValidatorSet s.validatorSet i) with
    | .error e => .error e
    | .ok r =>
      if r.jailed then sumActivePower env s rest total
      else
        match staticCall (env.getTotalPowerExcludeUnbonding s.validatorPool r.consensusAddress) with
        | .error e => .error e
        | .ok power =>
          match checkedAdd total power with
          | .error e => .error e
          | .ok total1 => sumActivePower env s rest total1

/-- Second loop of `AllocateJailValidatorReward`: every record whose flag is
not set is credited `reward * power / totalPower`. -/
def creditActive (env : Env) (reward totalPower : Nat) :
    List Nat → State → Except Error State
  | [], s => .ok s
  | i :: rest, s =>
    match staticCall (env.currentValidatorSet s.validatorSet i) with
    | .error e => .error e
    | .ok r =>
      if r.jailed then creditActive env reward totalPower rest s
      else
        match staticCall (env.getTotalPowerExcludeUnbonding s.validatorPool r.consensusAddress) with
        | .error e => .error e
        | .ok power =>
          match checkedMul reward power with
          | .error e => .error e
          | .ok scaled =>
            match checkedDiv scaled totalPower with
            | .error e => .error e
            | .ok share =>
              match checkedAdd (s.rewardMapping r.consensusAddress) share with
              | .error e => .error e
              | .ok accrued =>
                creditActive env reward totalPower rest
                  { s with rewardMapping :=
                      Function.update s.rewardMapping r.consensusAddress accrued }

/-- Body of `AllocateJailValidatorReward(address)`. -/
def AllocateJailValidatorRewardBody (env : Env) (sender : Address)
    (consensusAddress : Address) (s : State) : Except Error (State × List Transfer) :=
  if !s.alreadyInit then .error .NotInitialized
  else if !(sender = s.BKCValidatorSetAddress) then .error .Unauthorized
  else
    match staticCall (env.validatorSetLength s.validatorSet) with
    | .error e => .error e
    | .ok n =>
      match sumActivePower env s (List.range n) 0 with
      | .error e => .error e
      | .ok totalPower =>
        match checkedMul (s.rewardMapping consensusAddress) 90 with
        | .error e => .error e
        | .ok scaled =>
          match checkedDiv scaled 100 with
          | .error e => .error e
          | .ok reward =>
            match creditActive env reward totalPower (List.range n) s with
            | .error e => .error e
            | .ok s1 =>
              .ok ({ s1 with rewardMapping :=
                      Function.update s1.rewardMapping consensusAddress 0 }, [])

/-- Entry point `AllocateJailValidatorReward` (selector `0x348749e0`),
nonpayable. -/
def AllocateJailValidatorReward (env : Env) (s : State) (sender : Address)
    (consensusAddress : Address) : Outcome Unit :=
  transact s 0 (AllocateJailValidatorRewardBody env sender consensusAddress)

/-- Entry point `getBalance` (selector `0x12065fe0`). -/
def getBalance (s : State) (_sender : Address) : Outcome Nat :=
  view s (fun s => if !s.alreadyInit then .error .NotInitialized else .ok s.balance)

/-- Entry point `getTotalPower` (selector `0xd7dc81cd`): forwards to the
validator pool. -/
def getTotalPower (env : Env) (s : State) (_sender : Address)
    (consensusAddress : Address) : Outcome Nat :=
  view s (fun s => staticCall (env.getTotalPower s.validatorPool consensusAddress))

/-- Entry point `getTotalPowerExcludeUnbonding` (selector `0x322923b9`):
forwards to the validator pool. -/
def getTotalPowerExcludeUnbonding (env : Env) (s : State) (_sender : Address)
    (consensusAddress : Address) : Outcome Nat :=
  view s (fun s =>
    staticCall (env.getTotalPowerExcludeUnbonding s.validatorPool consensusAddress))

/-- Entry point `rewardMapping` (selector `0x571a9154`): the getter of the
public mapping. -/
def rewardMapping (s : State) (_sender : Address) (consensusAddress : Address) :
    Outcome Nat :=
  view s (fun s => .ok (s.rewardMapping consensusAddress))

/-- Entry point `alreadyInit` (selector `0xa78abc16`): the getter of the flag. -/
def alreadyInit (s : State) (_sender : Address) : Outcome Bool :=
  view s (fun s => .ok s.alreadyInit)

/-! ## Example worlds used by the concrete checks -/

/-- An example world.  The contract lives at 100, the validator set at 101,
the stake pool at 102 and the validator pool at 103.  The validator set has
the single record `(201, stake, 0, false)` and reports `index` for 201; the
validator pool reports `power` for 201; 201 has no delegators and every
recipient takes its payment. -/
def exampleEnv (index stake power : Nat) : Env :=
  { self := 100,
    validatorSetLength := fun c => if c = 101 then some 1 else none,
    currentValidatorSet := fun c i =>
      if c = 101 ∧ i = 0 then some ⟨201, stake, 0, false⟩ else none,
    currentValidatorSetMap := fun c v =>
      if c = 101 then (if v = 201 then some index else some 0) else none,
    getTotalPowerExcludeUnbonding := fun c v =>
      if c = 103 then (if v = 201 then some power else some 0) else none,
    getTotalPower := fun c v =>
      if c = 103 then (if v = 201 then some power else some 0) else none,
    getDelegators := fun c _ => if c = 102 then some [] else none,
    delegatorPower := fun c _ _ => if c = 102 then some 0 else none,
    accepts := fun _ _ => true }

/-- The contract after `init(101, 102, 103)`, sent by 7 right after
deployment. -/
def freshState : State := (init deployed 7 101 102 103).state

/-- The state `freshState` with `accrued` recorded for validator 201 and the
given balance. -/
def exampleState (accrued balance : Nat) : State :=
  { freshState with
    rewardMapping := fun v => if v = 201 then accrued else 0,
    balance := balance }

/-- The flag and the six address slots of a state. -/
def registry (s : State) :
    Bool × Address × Address × Address × Address × Address × Address :=
  (s.alreadyInit, s.BKCValidatorSetAddress, s.StakePoolAddress, s.ValidatorPoolAddress,
    s.validatorSet, s.stakePool, s.validatorPool)

/-- The accrued amounts are covered by the balance: the accrued amounts of
every finite set of validators add up to no more than the balance.  For a
ledger with finitely many entries this bounds the sum of all of them. -/
def ledgerCovered (s : State) : Prop :=
  ∀ F : Finset Address, F.sum s.rewardMapping ≤ s.balance

/-- The failures that carry no revert string of the contract: a panic of the
checked arithmetic (overflow or division by zero), a failed call to a
collaborator and a failed payment. -/
def Error.isFault : Error → Bool
  | .Panic code => code == 0x11 || code == 0x12
  | .CallFailed => true
  | .TransferFailed => true
  | _ => false

/-- The payments made on behalf of a validator by the internal payout
function, written out: `stake * accrued / totalPower` to the validator, then
`power d * accrued / totalPower` to every delegator `d`, in order. -/
def paymentsOnBehalf (consensusAddress accrued stake totalPower : Nat)
    (delegators : List Address) (power : Address → Nat) : List Transfer :=
  ⟨consensusAddress, stake * accrued / totalPower⟩ ::
    delegators.map fun d => ⟨d, power d * accrued / totalPower⟩

/-- An example world built from a list of records.  The contract lives at 100,
the validator set at 101, the stake pool at 102 and the validator pool at
103.  The validator set lists `records` and gives every listed validator its
position plus one as index (0 to the others); the recipients in `refused`
turn every payment down. -/
def worldOf (records : List ValidatorRecord) (power : Address → Nat)
    (delegators : Address → List Address) (share : Address → Address → Nat)
    (refused : List Address) : Env :=
  { self := 100,
    validatorSetLength := fun c => if c = 101 then some records.length else none,
    currentValidatorSet := fun c i => if c = 101 then records.get? i else none,
    currentValidatorSetMap := fun c v =>
      if c = 101 then
        some (if v ∈ records.map ValidatorRecord.consensusAddress
          then (records.map ValidatorRecord.consensusAddress).indexOf v + 1 else 0)
      else none,
    getTotalPowerExcludeUnbonding := fun c v => if c = 103 then some (power v) else none,
    getTotalPower := fun c v => if c = 103 then some (power v) else none,
    getDelegators := fun c v => if c = 102 then some (delegators v) else none,
    delegatorPower := fun c d v => if c = 102 then some (share d v) else none,
    accepts := fun r _ => !(refused.contains r) }

/-- The state `freshState` with the given ledger and balance. -/
def ledgerState (ledger : Address → Nat) (balance : Nat) : State :=
  { freshState with rewardMapping := ledger, balance := balance }

/-- Example: validator 201 (number 3 in its record, power 6) with the
delegators 301 (power 2) and 302 (power 1), and validator 202 (number 1,
power 1) without delegators. -/
def delegatedWorld (refused : List Address) : Env :=
  worldOf [⟨201, 3, 0, false⟩, ⟨202, 1, 0, false⟩]
    (fun v => if v = 201 then 6 else if v = 202 then 1 else 0)
    (fun v => if v = 201 then [301, 302] else [])
    (fun d v => if v = 201 then (if d = 301 then 2 else if d = 302 then 1 else 0) else 0)
    refused

/-- Example: the validators 201 (power 1) and 202 (power 2), and 203, whose
record has the flag set. -/
def jailWorld : Env :=
  worldOf [⟨201, 1, 0, false⟩, ⟨202, 1, 0, false⟩, ⟨203, 1, 0, true⟩]
    (fun v => if v = 201 then 1 else if v = 202 then 2 else 0)
    (fun _ => []) (fun _ _ => 0) []

/-- Example ledger: 900 for validator 201, 100 for validator 202. -/
def twoLedger (a b : Nat) : Address → Nat :=
  fun v => if v = 201 then a else if v = 202 then b else 0

/-! ## The answers about one validator, as the payout function reads them -/

/-- The record the payout function looks up for a validator: the one at the
index that `currentValidatorSetMap` reports, minus one. -/
def recordOf (env : Env) (s : State) (v : Address) : Option ValidatorRecord :=
  (env.currentValidatorSetMap s.validatorSet v).bind fun index =>
    env.currentValidatorSet s.validatorSet (index - 1)

/-- The number in the second field of the record of a validator (0 when the
validator set does not answer). -/
def stakeOf (env : Env) (s : State) (v : Address) : Nat :=
  ((recordOf env s v).map ValidatorRecord.stake).getD 0

/-- The power of a validator, unbonding excluded, as the validator pool
reports it (0 when the pool does not answer). -/
def powerOf (env : Env) (s : State) (v : Address) : Nat :=
  (env.getTotalPowerExcludeUnbonding s.validatorPool v).getD 0

/-- The delegators of a validator as the stake pool reports them. -/
def delegatorsOf (env : Env) (s : State) (v : Address) : List Address :=
  (env.getDelegators s.stakePool v).getD []

/-- The power of a delegator for a validator as the stake pool reports it. -/
def delegatorPowerOf (env : Env) (s : State) (d v : Address) : Nat :=
  (env.delegatorPower s.stakePool d v).getD 0

/-- The collaborators answer every question the payout function asks about a
validator, the index is at least 1 and the power is not 0. -/
def answersFor (env : Env) (s : State) (v : Address) : Prop :=
  (∃ index, env.currentValidatorSetMap s.validatorSet v = some index ∧ 1 ≤ index)
    ∧ (recordOf env s v).isSome = true
    ∧ (env.getTotalPowerExcludeUnbonding s.validatorPool v).isSome = true
    ∧ powerOf env s v ≠ 0
    ∧ (env.getDelegators s.stakePool v).isSome = true
    ∧ ∀ d ∈ delegatorsOf env s v, (env.delegatorPower s.stakePool d v).isSome = true

/-- The payments of one payout round for a validator, from the answers of the
collaborators and the accrued amount in the ledger. -/
def paymentsFor (env : Env) (s : State) (v : Address) : List Transfer :=
  paymentsOnBehalf v (s.rewardMapping v) (stakeOf env s v) (powerOf env s v)
    (delegatorsOf env s v) (fun d => delegatorPowerOf env s d v)

/-- The number in the record of a validator and the powers of its delegators
add up to no more than the power of the validator. -/
def sharesFit (env : Env) (s : State) (v : Address) : Prop :=
  stakeOf env s v + ((delegatorsOf env s v).map fun d => delegatorPowerOf env s d v).sum
    ≤ powerOf env s v

/-- The validator is in one of the records at the given indices. -/
def listedAt (env : Env) (s : State) (l : List Nat) (v : Address) : Prop :=
  ∃ i ∈ l, ∃ r, env.currentValidatorSet s.validatorSet i = some r ∧ r.consensusAddress = v

/-- The records at the given indices whose flag is not set. -/
def activeRecords (env : Env) (s : State) (l : List Nat) : List ValidatorRecord :=
  (l.filterMap (env.currentValidatorSet s.validatorSet)).filter fun r => !r.jailed

/-- The share of a reward that `AllocateJailValidatorReward` credits for one
record: `reward * power / totalPower`. -/
def shareOf (env : Env) (s : State) (reward totalPower : Nat) (r : ValidatorRecord) : Nat :=
  reward * powerOf env s r.consensusAddress / totalPower

/-- The sum of the shares credited to one validator over the records that name
it. -/
def creditFor (env : Env) (s : State) (reward totalPower : Nat) (l : List Nat)
    (a : Address) : Nat :=
  (((activeRecords env s l).filter fun r => r.consensusAddress = a).map
    (shareOf env s reward totalPower)).sum

/-! ## What it takes for the steps of a call to go through -/

/-- A payment that goes through as far as the recipient is concerned: the
recipient is not the contract itself and takes the amount. -/
def accepted (env : Env) (t : Transfer) : Prop :=
  t.recipient ≠ env.self ∧ env.accepts t.recipient t.amount = true

/-- The products that the payout function forms for a validator, the number in
its record times the accrued amount and the power of each delegator times the
accrued amount, fit in a word. -/
def productsFit (env : Env) (s : State) (v : Address) : Prop :=
  stakeOf env s v * s.rewardMapping v ≤ MAX_UINT256
    ∧ ∀ d ∈ delegatorsOf env s v,
        delegatorPowerOf env s d v * s.rewardMapping v ≤ MAX_UINT256

end SystemReward

/-! ## Arithmetic and transaction lemmas -/

namespace SystemReward

theorem checkedMul_ok (a b : Nat) (h : a * b ≤ MAX_UINT256) :
    checkedMul a b = .ok (a * b) := by
  unfold checkedMul
  rw [if_neg]
  rintro ⟨ha, hb⟩
  have hpos : 0 < a := Nat.pos_of_ne_zero ha
  have : b ≤ MAX_UINT256 / a := (Nat.le_div_iff_mul_le hpos).2 (by rwa [Nat.mul_comm] at h)
  omega

theorem checkedAdd_ok (a b : Nat) (h : a + b ≤ MAX_UINT256) :
    checkedAdd a b = .ok (a + b) := by
  unfold checkedAdd
  rw [if_neg]
  omega

theorem checkedDiv_ok (a b : Nat) (h : 0 < b) : checkedDiv a b = .ok (a / b) := by
  unfold checkedDiv
  rw [if_neg]
  omega

theorem transact_error (s : State) (value : Nat)
    (body : State → Except Error (State × List Transfer)) (e : Error)
    (h : body { s with balance := s.balance + value } = .error e) :
    transact s value body = ⟨.error e, s, []⟩ := by
  unfold transact
  rw [h]

theorem transact_ok (s : State) (value : Nat)
    (body : State → Except Error (State × List Transfer)) (s1 : State)
    (log : List Transfer)
    (h : body { s with balance := s.balance + value } = .ok (s1, log)) :
    transact s value body = ⟨.ok (), s1, log⟩ := by
  unfold transact
  rw [h]

/-! ## C1: accrual -/

/-- C1, as the contract has it: in a state that has been set up, for a
validator to which the validator set gives a nonzero index and an attached
value above 0 such that `value * 90` and the new accrued amount fit in a
256-bit word, `addReward` succeeds, the accrued amount of the validator grows
by `value * 90 / 100` (rounded down) and the balance grows by `value`. -/
theorem addReward_credits (env : Env) (s : State) (sender v value index : Nat)
    (hinit : s.alreadyInit = true)
    (hactive : env.currentValidatorSetMap s.validatorSet v = some index)
    (hindex : 0 < index) (hvalue : 0 < value)
    (hmul : value * 90 ≤ MAX_UINT256)
    (hadd : s.rewardMapping v + value * 90 / 100 ≤ MAX_UINT256) :
    (addReward env s sender v value).result = .ok ()
      ∧ (addReward env s sender v value).state.rewardMapping v
          = s.rewardMapping v + value * 90 / 100
      ∧ (addReward env s sender v value).state.balance = s.balance + value := by
  have hbody : addRewardBody env value v { s with balance := s.balance + value }
      = .ok ({ s with balance := s.balance + value,
                      rewardMapping := Function.update s.rewardMapping v
                        (s.rewardMapping v + value * 90 / 100) }, []) := by
    simp [addRewardBody, hinit, hactive, staticCall, hindex, hvalue,
      checkedMul_ok _ _ hmul, checkedDiv_ok, checkedAdd_ok _ _ hadd]
  unfold addReward
  rw [transact_ok _ _ _ _ _ hbody]
  simp

/-- C1, the scenario: `init`, then `addReward` for validator 201 with 1000
attached, leaves 900 accrued for 201 and a balance of 1000. -/
theorem addReward_credits_witness :
    (addReward (exampleEnv 1 1 1) freshState 7 201 1000).result = .ok ()
      ∧ (addReward (exampleEnv 1 1 1) freshState 7 201 1000).state.rewardMapping 201 = 900
      ∧ (addReward (exampleEnv 1 1 1) freshState 7 201 1000).state.balance = 1000 :=
  addReward_credits (exampleEnv 1 1 1) freshState 7 201 1000 1
    (by decide) (by decide) (by decide) (by decide) (by decide) (by decide)

/-- C1 fails as stated: for an active validator and the attached value
`2 ^ 256 - 1`, which is above 0, `addReward` does not succeed: the product
`value * 90` leaves the 256-bit range and the call reverts with a panic. -/
theorem addReward_overflow_counterexample :
    freshState.alreadyInit = true
      ∧ (exampleEnv 1 1 1).currentValidatorSetMap freshState.validatorSet 201 = some 1
      ∧ 0 < 2 ^ 256 - 1 ∧ 2 ^ 256 - 1 ≤ MAX_UINT256
      ∧ (addReward (exampleEnv 1 1 1) freshState 7 201 (2 ^ 256 - 1)).result
          = .error (.Panic 0x11)
      ∧ (addReward (exampleEnv 1 1 1) freshState 7 201 (2 ^ 256 - 1)).state.rewardMapping 201
          = 0 := by
  decide

/-! ## C2: the two operations reserved to the validator set -/

/-- C2: in a state that has been set up, a sender other than the recorded
validator-set address gets `Unauthorized` from `distributeReward` and from
`AllocateJailValidatorReward`; state (ledger, balance) is as before and
nothing is paid. -/
theorem unauthorized_rejected (env : Env) (s : State) (sender v : Address)
    (hinit : s.alreadyInit = true) (hsender : sender ≠ s.BKCValidatorSetAddress) :
    distributeReward env s sender = ⟨.error .Unauthorized, s, []⟩
      ∧ AllocateJailValidatorReward env s sender v = ⟨.error .Unauthorized, s, []⟩ := by
  constructor
  · unfold distributeReward
    apply transact_error
    simp [distributeRewardBody, hinit, hsender]
  · unfold AllocateJailValidatorReward
    apply transact_error
    simp [AllocateJailValidatorRewardBody, hinit, hsender]

/-- C2, the scenario: with 900 accrued for validator 201, sender 55 is not the
validator set (101); both calls fail and 900 stays accrued. -/
theorem unauthorized_rejected_witness :
    (distributeReward (exampleEnv 1 1 1) (exampleState 900 1000) 55).result
        = .error .Unauthorized
      ∧ (distributeReward (exampleEnv 1 1 1) (exampleState 900 1000) 55).state.rewardMapping 201
        = 900
      ∧ (AllocateJailValidatorReward (exampleEnv 1 1 1) (exampleState 900 1000) 55 201).result
        = .error .Unauthorized
      ∧ (AllocateJailValidatorReward (exampleEnv 1 1 1)
          (exampleState 900 1000) 55 201).state.balance = 1000 := by
  have h := unauthorized_rejected (exampleEnv 1 1 1) (exampleState 900 1000) 55 201
    (by decide) (by decide)
  rw [h.1, h.2]
  decide

/-! ## C5: `init` -/

/-- C5: on a state that has not been set up `init` succeeds for any sender,
stores the three addresses (in slots 3 to 5 and again in slots 6 to 8) and
sets the flag, leaving ledger, balance and slot 1 alone; on a state that has
been set up it fails with `AlreadyInitialized` and changes nothing. -/
theorem init_once (s : State) (sender a b c : Address) :
    (s.alreadyInit = false →
        init s sender a b c =
          ⟨.ok (), { s with alreadyInit := true,
                            BKCValidatorSetAddress := a, StakePoolAddress := b,
                            ValidatorPoolAddress := c,
                            validatorSet := a, stakePool := b, validatorPool := c }, []⟩)
      ∧ (s.alreadyInit = true →
          init s sender a b c = ⟨.error .AlreadyInitialized, s, []⟩) := by
  constructor
  · intro h
    unfold init
    apply transact_ok
    simp [initBody, h]
  · intro h
    unfold init
    apply transact_error
    simp [initBody, h]

/-- C5, the scenario: the first `init` records 101, 102, 103; a second one
with other addresses fails and the recorded ones stay. -/
theorem init_once_witness :
    (init deployed 7 101 102 103).result = .ok ()
      ∧ (init deployed 7 101 102 103).state.BKCValidatorSetAddress = 101
      ∧ (init deployed 7 101 102 103).state.alreadyInit = true
      ∧ (init freshState 9 1 2 3).result = .error .AlreadyInitialized
      ∧ (init freshState 9 1 2 3).state.BKCValidatorSetAddress = 101
      ∧ (init freshState 9 1 2 3).state.StakePoolAddress = 102
      ∧ (init freshState 9 1 2 3).state.ValidatorPoolAddress = 103 := by
  rw [(init_once deployed 7 101 102 103).1 (by decide),
    (init_once freshState 9 1 2 3).2 (by decide)]
  decide

/-! ## C6 and C7: the two guards of `addReward` -/

/-- C6, as the contract has it: in a state that has been set up, a validator
to which the validator set gives index 0 cannot be credited: `addReward`
fails with `InactiveValidator` for every attached value, 0 included, and
leaves the state as it was. -/
theorem addReward_inactive (env : Env) (s : State) (sender v value : Nat)
    (hinit : s.alreadyInit = true)
    (hinactive : env.currentValidatorSetMap s.validatorSet v = some 0) :
    addReward env s sender v value = ⟨.error .InactiveValidator, s, []⟩ := by
  unfold addReward
  apply transact_error
  simp [addRewardBody, hinit, hinactive, staticCall]

/-- C6, a concrete case: validator 201 with index 0 and 1000 attached. -/
theorem addReward_inactive_witness :
    (addReward (exampleEnv 0 1 1) (exampleState 900 1000) 7 201 1000).result
        = .error .InactiveValidator
      ∧ (addReward (exampleEnv 0 1 1) (exampleState 900 1000) 7 201 1000).state.rewardMapping 201
        = 900
      ∧ (addReward (exampleEnv 0 1 1) (exampleState 900 1000) 7 201 1000).state.balance
        = 1000 := by
  rw [addReward_inactive (exampleEnv 0 1 1) (exampleState 900 1000) 7 201 1000
    (by decide) (by decide)]
  decide

/-- C6 fails as stated: the validator pool reports the power 0 (unbonding
excluded) for validator 201, yet `addReward` with 1000 attached succeeds and
credits 900, because the guard asks the validator set for the index of 201
and not the pool for its power. -/
theorem addReward_zero_power_counterexample :
    freshState.alreadyInit = true
      ∧ (getTotalPowerExcludeUnbonding (exampleEnv 1 1 0) freshState 7 201).result = .ok 0
      ∧ (addReward (exampleEnv 1 1 0) freshState 7 201 1000).result = .ok ()
      ∧ (addReward (exampleEnv 1 1 0) freshState 7 201 1000).state.rewardMapping 201 = 900
      ∧ (addReward (exampleEnv 1 1 0) freshState 7 201 1000).state.balance = 1000 := by
  decide

/-- C7, as the contract has it: in a state that has been set up, `addReward`
with nothing attached fails with `ZeroValueDeposit` for a validator to which
the validator set gives a nonzero index; and for every validator, whatever
the validator set says about it, `addReward` with nothing attached leaves the
state, hence the accrued amount, as it was. -/
theorem addReward_zero_value (env : Env) (s : State) (sender v : Nat)
    (hinit : s.alreadyInit = true) :
    (∀ index, env.currentValidatorSetMap s.validatorSet v = some index → 0 < index →
        addReward env s sender v 0 = ⟨.error .ZeroValueDeposit, s, []⟩)
      ∧ (addReward env s sender v 0).state = s
      ∧ (addReward env s sender v 0).result ≠ .ok () := by
  refine ⟨?_, ?_⟩
  · intro index hactive hindex
    unfold addReward
    apply transact_error
    simp [addRewardBody, hinit, hactive, staticCall, hindex]
  · have hfail : ∃ e, addRewardBody env 0 v { s with balance := s.balance + 0 } = .error e := by
      unfold addRewardBody
      simp only [hinit, staticCall]
      cases env.currentValidatorSetMap s.validatorSet v with
      | none => exact ⟨_, rfl⟩
      | some index =>
        by_cases hindex : index > 0
        · exact ⟨.ZeroValueDeposit, by simp [hindex]⟩
        · exact ⟨.InactiveValidator, by simp [hindex]⟩
    obtain ⟨e, he⟩ := hfail
    unfold addReward
    rw [transact_error _ _ _ _ he]
    simp

/-- C7, the scenario: after 900 has been accrued for validator 201, an
`addReward` for 201 with nothing attached fails with `ZeroValueDeposit` and
900 stays accrued. -/
theorem addReward_zero_value_witness :
    (addReward (exampleEnv 1 1 1)
        (addReward (exampleEnv 1 1 1) freshState 7 201 1000).state 7 201 0).result
        = .error .ZeroValueDeposit
      ∧ (addReward (exampleEnv 1 1 1)
          (addReward (exampleEnv 1 1 1) freshState 7 201 1000).state 7 201 0).state.rewardMapping
            201 = 900 := by
  have h := (addReward_zero_value (exampleEnv 1 1 1)
    (addReward (exampleEnv 1 1 1) freshState 7 201 1000).state 7 201 (by decide)).1 1
    (by decide) (by decide)
  rw [h]
  decide

/-- C7 fails as stated: for validator 201, to which the validator set gives
index 0, `addReward` with nothing attached fails with `InactiveValidator`,
not with `ZeroValueDeposit`: the index is checked before the value. -/
theorem addReward_zero_value_counterexample :
    freshState.alreadyInit = true
      ∧ (addReward (exampleEnv 0 1 0) freshState 7 201 0).result = .error .InactiveValidator
      ∧ (addReward (exampleEnv 0 1 0) freshState 7 201 0).result
          ≠ .error .ZeroValueDeposit := by
  decide

end SystemReward

namespace SystemReward

/-! ## C8: nothing runs before `init` -/

/-- C8: in a state that has not been set up, `addReward`, `distributeReward`,
`AllocateJailValidatorReward` and `fund` fail with `NotInitialized` for
every sender, argument, attached value and every answer the collaborators
could give (so before the sender is compared and before any collaborator is
asked), and the state is as before. -/
theorem not_initialized_rejected (env : Env) (s : State) (sender v value : Nat)
    (hinit : s.alreadyInit = false) :
    addReward env s sender v value = ⟨.error .NotInitialized, s, []⟩
      ∧ distributeReward env s sender = ⟨.error .NotInitialized, s, []⟩
      ∧ AllocateJailValidatorReward env s sender v = ⟨.error .NotInitialized, s, []⟩
      ∧ fund s sender value = ⟨.error .NotInitialized, s, []⟩ := by
  refine ⟨?_, ?_, ?_, ?_⟩
  · unfold addReward
    apply transact_error
    simp [addRewardBody, hinit]
  · unfold distributeReward
    apply transact_error
    simp [distributeRewardBody, hinit]
  · unfold AllocateJailValidatorReward
    apply transact_error
    simp [AllocateJailValidatorRewardBody, hinit]
  · unfold fund
    apply transact_error
    simp [fundBody, hinit]

/-- C8, a concrete case: the four calls on the contract right after
deployment, the sender being the future validator set. -/
theorem not_initialized_rejected_witness :
    (addReward (exampleEnv 1 1 1) deployed 101 201 1000).result = .error .NotInitialized
      ∧ (distributeReward (exampleEnv 1 1 1) deployed 101).result = .error .NotInitialized
      ∧ (AllocateJailValidatorReward (exampleEnv 1 1 1) deployed 101 201).result
          = .error .NotInitialized
      ∧ (fund deployed 101 1000).result = .error .NotInitialized
      ∧ (fund deployed 101 1000).state.balance = 0 := by
  have h := not_initialized_rejected (exampleEnv 1 1 1) deployed 101 201 1000 (by decide)
  rw [h.1, h.2.1, h.2.2.1, h.2.2.2]
  decide

/-! ## C9: the read accessors -/

/-- C9, as the contract has it: `getBalance` fails with `NotInitialized`
before `init` and returns the balance after it; `rewardMapping` returns the
accrued amount in every state; `getTotalPower` and
`getTotalPowerExcludeUnbonding` return the figure of the validator pool
whenever the pool answers; none of the four looks at the sender and none
changes the state. -/
theorem read_accessors (env : Env) (s : State) (sender v : Address) :
    (s.alreadyInit = false → getBalance s sender = ⟨.error .NotInitialized, s, []⟩)
      ∧ (s.alreadyInit = true → getBalance s sender = ⟨.ok s.balance, s, []⟩)
      ∧ rewardMapping s sender v = ⟨.ok (s.rewardMapping v), s, []⟩
      ∧ (∀ p, env.getTotalPower s.validatorPool v = some p →
          getTotalPower env s sender v = ⟨.ok p, s, []⟩)
      ∧ (∀ p, env.getTotalPowerExcludeUnbonding s.validatorPool v = some p →
          getTotalPowerExcludeUnbonding env s sender v = ⟨.ok p, s, []⟩)
      ∧ (getTotalPower env s sender v).state = s
      ∧ (getTotalPowerExcludeUnbonding env s sender v).state = s := by
  refine ⟨?_, ?_, rfl, ?_, ?_, rfl, rfl⟩
  · intro h
    simp [getBalance, view, h]
  · intro h
    simp [getBalance, view, h]
  · intro p h
    simp [getTotalPower, view, h, staticCall]
  · intro p h
    simp [getTotalPowerExcludeUnbonding, view, h, staticCall]

/-- C9, a concrete case: the reads on a state with 900 accrued for validator
201 and a balance of 1000, the pool reporting the power 5. -/
theorem read_accessors_witness :
    (getBalance deployed 7).result = .error .NotInitialized
      ∧ (getBalance (exampleState 900 1000) 7).result = .ok 1000
      ∧ (rewardMapping (exampleState 900 1000) 7 201).result = .ok 900
      ∧ (getTotalPower (exampleEnv 1 1 5) (exampleState 900 1000) 7 201).result = .ok 5
      ∧ (getTotalPowerExcludeUnbonding (exampleEnv 1 1 5)
          (exampleState 900 1000) 7 201).result = .ok 5 := by
  have h1 := read_accessors (exampleEnv 1 1 5) deployed 7 201
  have h2 := read_accessors (exampleEnv 1 1 5) (exampleState 900 1000) 7 201
  rw [h1.1 (by decide), h2.2.1 (by decide), h2.2.2.1, h2.2.2.2.1 5 (by decide),
    h2.2.2.2.2.1 5 (by decide)]
  decide

/-- C9 fails as stated: on the contract right after deployment the flag is
not set, yet `rewardMapping` succeeds (it answers 0), and `getTotalPower` and
`getTotalPowerExcludeUnbonding` fail because the callee in slot 8 is still the
zero address, not with `NotInitialized`. -/
theorem read_accessors_counterexample :
    deployed.alreadyInit = false
      ∧ (rewardMapping deployed 7 201).result = .ok 0
      ∧ (getTotalPower (exampleEnv 1 1 5) deployed 7 201).result = .error .CallFailed
      ∧ (getTotalPowerExcludeUnbonding (exampleEnv 1 1 5) deployed 7 201).result
          = .error .CallFailed := by
  decide

/-! ## C10: reallocation of the reward of a jailed validator -/

theorem transact_result_ok (s : State) (value : Nat)
    (body : State → Except Error (State × List Transfer))
    (h : (transact s value body).result = .ok ()) :
    ∃ s1 log, body { s with balance := s.balance + value } = .ok (s1, log)
      ∧ transact s value body = ⟨.ok (), s1, log⟩ := by
  cases hb : body { s with balance := s.balance + value } with
  | error e =>
    rw [transact_error _ _ _ _ hb] at h
    exact absurd h (by simp)
  | ok p =>
    obtain ⟨s1, log⟩ := p
    exact ⟨s1, log, rfl, transact_ok _ _ _ _ _ hb⟩

theorem creditActive_balance (env : Env) (reward totalPower : Nat) :
    ∀ (l : List Nat) (s s1 : State),
      creditActive env reward totalPower l s = .ok s1 → s1.balance = s.balance := by
  intro l
  induction l with
  | nil =>
    intro s s1 h
    simp only [creditActive, Except.ok.injEq] at h
    rw [h]
  | cons i rest ih =>
    intro s s1 h
    simp only [creditActive] at h
    split at h
    · exact absurd h (by simp)
    · split at h
      · exact ih _ _ h
      · split at h
        · exact absurd h (by simp)
        · split at h
          · exact absurd h (by simp)
          · split at h
            · exact absurd h (by simp)
            · split at h
              · exact absurd h (by simp)
              · have h2 := ih _ _ h
                exact h2

theorem allocateBody_ok (env : Env) (sender v : Address) (s0 s1 : State)
    (log : List Transfer)
    (h : AllocateJailValidatorRewardBody env sender v s0 = .ok (s1, log)) :
    s0.alreadyInit = true ∧ sender = s0.BKCValidatorSetAddress
      ∧ s1.rewardMapping v = 0 ∧ log = [] ∧ s1.balance = s0.balance := by
  unfold AllocateJailValidatorRewardBody at h
  split at h
  · exact absurd h (by simp)
  · rename_i hinit
    split at h
    · exact absurd h (by simp)
    · rename_i hsender
      split at h
      · exact absurd h (by simp)
      · split at h
        · exact absurd h (by simp)
        · split at h
          · exact absurd h (by simp)
          · split at h
            · exact absurd h (by simp)
            · split at h
              · exact absurd h (by simp)
              · rename_i s2 hcredit
                have hbal := creditActive_balance _ _ _ _ _ _ hcredit
                simp only [Except.ok.injEq, Prod.mk.injEq] at h
                obtain ⟨hs, hl⟩ := h
                subst hs
                subst hl
                simp at hinit hsender
                simp [hbal, hinit, hsender]

/-- C10: when `AllocateJailValidatorReward` for a validator succeeds (which
takes a state that has been set up and the validator set as sender), the
accrued amount of that validator is 0 afterwards, no payment has been made
and the balance is as before. -/
theorem allocate_zeroes_without_payment (env : Env) (s : State) (sender v : Address)
    (hok : (AllocateJailValidatorReward env s sender v).result = .ok ()) :
    s.alreadyInit = true ∧ sender = s.BKCValidatorSetAddress
      ∧ (AllocateJailValidatorReward env s sender v).state.rewardMapping v = 0
      ∧ (AllocateJailValidatorReward env s sender v).transfers = []
      ∧ (AllocateJailValidatorReward env s sender v).state.balance = s.balance := by
  unfold AllocateJailValidatorReward at hok ⊢
  obtain ⟨s1, log, hbody, hrun⟩ := transact_result_ok _ _ _ hok
  rw [hrun]
  have h := allocateBody_ok _ _ _ _ _ _ hbody
  simpa using h

/-- C10, a concrete case: the validator set (101) reallocates the 900 accrued
for validator 201; the balance stays 1000. -/
theorem allocate_zeroes_without_payment_witness :
    (AllocateJailValidatorReward (exampleEnv 1 1 1) (exampleState 900 1000) 101 201).result
        = .ok ()
      ∧ (AllocateJailValidatorReward (exampleEnv 1 1 1)
          (exampleState 900 1000) 101 201).state.rewardMapping 201 = 0
      ∧ (AllocateJailValidatorReward (exampleEnv 1 1 1)
          (exampleState 900 1000) 101 201).state.balance = 1000 := by
  have h := allocate_zeroes_without_payment (exampleEnv 1 1 1) (exampleState 900 1000) 101 201
    (by decide)
  exact ⟨by decide, h.2.2.1, h.2.2.2.2⟩

end SystemReward

namespace SystemReward

/-! ## C3: the balance check of `distributeReward` -/

theorem sumAccrued_eq (env : Env) (s : State) (records : Nat → ValidatorRecord) :
    ∀ (l : List Nat) (total : Nat),
      (∀ i ∈ l, env.currentValidatorSet s.validatorSet i = some (records i)) →
      total + (l.map fun i => s.rewardMapping (records i).consensusAddress).sum
          ≤ MAX_UINT256 →
      sumAccrued env s l total
        = .ok (total + (l.map fun i => s.rewardMapping (records i).consensusAddress).sum) := by
  intro l
  induction l with
  | nil =>
    intro total _ _
    simp [sumAccrued]
  | cons i rest ih =>
    intro total hrec hfit
    simp only [List.map_cons, List.sum_cons] at hfit ⊢
    have hi := hrec i (List.mem_cons_self _ _)
    have hadd : checkedAdd total (s.rewardMapping (records i).consensusAddress)
        = .ok (total + s.rewardMapping (records i).consensusAddress) :=
      checkedAdd_ok _ _ (by omega)
    simp only [sumAccrued, hi, staticCall, hadd]
    rw [ih _ (fun j hj => hrec j (List.mem_cons_of_mem _ hj)) (by omega)]
    simp [Nat.add_assoc]

theorem distributeRewardBody_short (env : Env) (sender : Address) (s : State) (n : Nat)
    (records : Nat → ValidatorRecord)
    (hinit : s.alreadyInit = true) (hsender : sender = s.BKCValidatorSetAddress)
    (hlen : env.validatorSetLength s.validatorSet = some n)
    (hrec : ∀ i, i < n → env.currentValidatorSet s.validatorSet i = some (records i))
    (hfit : ((List.range n).map fun i => s.rewardMapping (records i).consensusAddress).sum
        ≤ MAX_UINT256)
    (hshort : s.balance
        < ((List.range n).map fun i => s.rewardMapping (records i).consensusAddress).sum) :
    distributeRewardBody env sender s = .error .InsufficientFunds := by
  have hsum := sumAccrued_eq env s records (List.range n) 0
    (fun i hi => hrec i (List.mem_range.1 hi)) (by omega)
  unfold distributeRewardBody
  simp only [hinit, hsender, hlen, staticCall, hsum]
  simp [hshort]

/-- C3, as the contract has it: in a state that has been set up, when the
validator set calls `distributeReward` and the sum of the accrued amounts of
the validators the set lists (the total the first loop computes, which fits
in a word) is above the balance, the call fails with `InsufficientFunds`; no
payment is made and no ledger entry or balance changes. -/
theorem distribute_insufficient_funds (env : Env) (s : State) (sender : Address) (n : Nat)
    (records : Nat → ValidatorRecord)
    (hinit : s.alreadyInit = true) (hsender : sender = s.BKCValidatorSetAddress)
    (hlen : env.validatorSetLength s.validatorSet = some n)
    (hrec : ∀ i, i < n → env.currentValidatorSet s.validatorSet i = some (records i))
    (hfit : ((List.range n).map fun i => s.rewardMapping (records i).consensusAddress).sum
        ≤ MAX_UINT256)
    (hshort : s.balance
        < ((List.range n).map fun i => s.rewardMapping (records i).consensusAddress).sum) :
    distributeReward env s sender = ⟨.error .InsufficientFunds, s, []⟩ := by
  unfold distributeReward
  apply transact_error
  exact distributeRewardBody_short env sender { s with balance := s.balance + 0 } n records
    hinit hsender hlen hrec hfit hshort

/-- C3, the scenario: 900 accrued for validator 201 and a balance of 899; the
validator set (101) calls `distributeReward`, which fails with
`InsufficientFunds`, and 900 stays accrued. -/
theorem distribute_insufficient_funds_witness :
    (distributeReward (exampleEnv 1 1 1) (exampleState 900 899) 101).result
        = .error .InsufficientFunds
      ∧ (distributeReward (exampleEnv 1 1 1) (exampleState 900 899) 101).state.rewardMapping 201
        = 900
      ∧ (distributeReward (exampleEnv 1 1 1) (exampleState 900 899) 101).state.balance = 899
      ∧ (distributeReward (exampleEnv 1 1 1) (exampleState 900 899) 101).transfers = [] := by
  rw [distribute_insufficient_funds (exampleEnv 1 1 1) (exampleState 900 899) 101 1
    (fun _ => ⟨201, 1, 0, false⟩) (by decide) (by decide) (by decide) (by decide)
    (by decide) (by decide)]
  decide

/-- C3 fails as stated: validator 201 has 900 accrued, the number 2 in its
record and the power 1, so the call pays it `2 * 900 / 1 = 1800` when the
balance allows (first two lines).  With a balance of 1000 the payout of 1800
is above the balance, yet the call does not fail with `InsufficientFunds`:
the check compares the balance with the accrued 900, lets the call through,
and the payment itself fails. -/
theorem distribute_payout_counterexample :
    (distributeReward (exampleEnv 1 2 1) (exampleState 900 5000) 101).result = .ok ()
      ∧ totalPaid (distributeReward (exampleEnv 1 2 1) (exampleState 900 5000) 101).transfers
          = 1800
      ∧ (exampleState 900 1000).alreadyInit = true
      ∧ (exampleState 900 1000).BKCValidatorSetAddress = 101
      ∧ (exampleState 900 1000).balance < 1800
      ∧ (distributeReward (exampleEnv 1 2 1) (exampleState 900 1000) 101).result
          = .error .TransferFailed
      ∧ (distributeReward (exampleEnv 1 2 1) (exampleState 900 1000) 101).result
          ≠ .error .InsufficientFunds := by
  decide

end SystemReward

namespace SystemReward

/-! ## C4: a successful `distributeReward` -/

theorem totalPaid_append (l1 l2 : List Transfer) :
    totalPaid (l1 ++ l2) = totalPaid l1 + totalPaid l2 := by
  simp [totalPaid]

theorem transfer_ok (env : Env) (s s1 : State) (recipient amount : Nat)
    (h : transfer env s recipient amount = .ok s1) :
    s1.rewardMapping = s.rewardMapping ∧ s1.validatorSet = s.validatorSet
      ∧ s1.balance + amount = s.balance := by
  unfold transfer at h
  split at h
  · exact absurd h (by simp)
  · split at h
    · exact absurd h (by simp)
    · split at h
      · exact absurd h (by simp)
      · simp only [Except.ok.injEq] at h
        subst h
        simp
        omega

theorem payDelegators_ok (env : Env) (v totalPower : Nat) :
    ∀ (l : List Address) (s s1 : State) (log log1 : List Transfer),
      payDelegators env v totalPower l s log = .ok (s1, log1) →
      s1.rewardMapping = s.rewardMapping ∧ s1.validatorSet = s.validatorSet
        ∧ s1.balance + totalPaid log1 = s.balance + totalPaid log := by
  intro l
  induction l with
  | nil =>
    intro s s1 log log1 h
    simp only [payDelegators, Except.ok.injEq, Prod.mk.injEq] at h
    obtain ⟨hs, hl⟩ := h
    subst hs
    subst hl
    simp
  | cons d rest ih =>
    intro s s1 log log1 h
    simp only [payDelegators] at h
    split at h
    · exact absurd h (by simp)
    · split at h
      · exact absurd h (by simp)
      · split at h
        · exact absurd h (by simp)
        · split at h
          · exact absurd h (by simp)
          · rename_i amount _ s2 htransfer
            obtain ⟨hr, hv, hb⟩ := transfer_ok _ _ _ _ _ htransfer
            obtain ⟨hr1, hv1, hb1⟩ := ih _ _ _ _ h
            refine ⟨hr1.trans hr, hv1.trans hv, ?_⟩
            rw [totalPaid_append] at hb1
            simp only [totalPaid, List.map_cons, List.map_nil, List.sum_cons, List.sum_nil] at hb1 ⊢
            omega

theorem distributeRewardTo_ok (env : Env) (s s1 : State) (v : Address)
    (paid : List Transfer) (h : distributeRewardTo env s v = .ok (s1, paid)) :
    s1.rewardMapping = s.rewardMapping ∧ s1.validatorSet = s.validatorSet
      ∧ s1.balance + totalPaid paid = s.balance := by
  unfold distributeRewardTo at h
  split at h
  · exact absurd h (by simp)
  · split at h
    · exact absurd h (by simp)
    · split at h
      · exact absurd h (by simp)
      · split at h
        · exact absurd h (by simp)
        · split at h
          · exact absurd h (by simp)
          · split at h
            · exact absurd h (by simp)
            · split at h
              · exact absurd h (by simp)
              · split at h
                · exact absurd h (by simp)
                · split at h
                  · exact absurd h (by simp)
                  · rename_i amount _ s2 htransfer _ delegators _
                    obtain ⟨hr, hv, hb⟩ := transfer_ok _ _ _ _ _ htransfer
                    obtain ⟨hr1, hv1, hb1⟩ := payDelegators_ok _ _ _ _ _ _ _ _ h
                    refine ⟨hr1.trans hr, hv1.trans hv, ?_⟩
                    simp only [totalPaid, List.map_cons, List.map_nil, List.sum_cons,
                      List.sum_nil] at hb1 ⊢
                    omega

theorem payoutLoop_ok (env : Env) :
    ∀ (l : List Nat) (s s1 : State) (log log1 : List Transfer),
      payoutLoop env l s log = .ok (s1, log1) →
      s1.balance + totalPaid log1 = s.balance + totalPaid log
        ∧ (∀ a, s.rewardMapping a = 0 → s1.rewardMapping a = 0)
        ∧ (∀ i ∈ l, ∀ r, env.currentValidatorSet s.validatorSet i = some r →
            s1.rewardMapping r.consensusAddress = 0) := by
  intro l
  induction l with
  | nil =>
    intro s s1 log log1 h
    simp only [payoutLoop, Except.ok.injEq, Prod.mk.injEq] at h
    obtain ⟨hs, hl⟩ := h
    subst hs
    subst hl
    simp
  | cons i rest ih =>
    intro s s1 log log1 h
    simp only [payoutLoop] at h
    cases hrec : env.currentValidatorSet s.validatorSet i with
    | none => simp [hrec, staticCall] at h
    | some r0 =>
      simp only [hrec, staticCall] at h
      by_cases hpos : s.rewardMapping r0.consensusAddress > 0
      · simp only [hpos, if_true] at h
        cases hto : distributeRewardTo env s r0.consensusAddress with
        | error e => simp [hto] at h
        | ok p =>
          obtain ⟨s2, paid⟩ := p
          simp only [hto] at h
          obtain ⟨hr, hv, hb⟩ := distributeRewardTo_ok _ _ _ _ _ hto
          obtain ⟨hb1, hz1, hall1⟩ := ih _ _ _ _ h
          refine ⟨?_, ?_, ?_⟩
          · rw [totalPaid_append] at hb1
            simp only at hb1
            omega
          · intro a ha
            apply hz1
            simp only [Function.update_apply]
            split
            · rfl
            · rw [hr]; exact ha
          · intro j hj r hrj
            rcases List.mem_cons.1 hj with hji | hjr
            · subst hji
              rw [hrec] at hrj
              cases hrj
              apply hz1
              simp
            · exact hall1 j hjr r (by simpa [hv] using hrj)
      · simp only [hpos, if_false] at h
        obtain ⟨hb1, hz1, hall1⟩ := ih _ _ _ _ h
        refine ⟨hb1, hz1, ?_⟩
        intro j hj r hrj
        rcases List.mem_cons.1 hj with hji | hjr
        · subst hji
          rw [hrec] at hrj
          cases hrj
          exact hz1 _ (by omega)
        · exact hall1 j hjr r hrj

theorem distributeRewardBody_ok (env : Env) (sender : Address) (s s1 : State)
    (log : List Transfer) (h : distributeRewardBody env sender s = .ok (s1, log)) :
    s1.balance + totalPaid log = s.balance
      ∧ (∀ n i r, env.validatorSetLength s.validatorSet = some n → i < n →
          env.currentValidatorSet s.validatorSet i = some r →
          s1.rewardMapping r.consensusAddress = 0) := by
  unfold distributeRewardBody at h
  split at h
  · exact absurd h (by simp)
  · split at h
    · exact absurd h (by simp)
    · cases hlen : env.validatorSetLength s.validatorSet with
      | none => simp [hlen, staticCall] at h
      | some n =>
        simp only [hlen, staticCall] at h
        split at h
        · exact absurd h (by simp)
        · split at h
          · exact absurd h (by simp)
          · obtain ⟨hb, _, hall⟩ := payoutLoop_ok _ _ _ _ _ _ h
            refine ⟨by simpa [totalPaid] using hb, ?_⟩
            intro m i r hm hi hr
            cases hm
            exact hall i (List.mem_range.2 hi) r hr

/-- C4: after a successful `distributeReward`, every validator that the
validator set lists (at an index below the length it reports) and that had a
positive accrued amount before the call has the accrued amount 0, and the
balance is the balance before the call minus the sum of the amounts paid out
during the call. -/
theorem distribute_success (env : Env) (s : State) (sender : Address)
    (hok : (distributeReward env s sender).result = .ok ()) :
    (∀ n i r, env.validatorSetLength s.validatorSet = some n → i < n →
        env.currentValidatorSet s.validatorSet i = some r →
        0 < s.rewardMapping r.consensusAddress →
        (distributeReward env s sender).state.rewardMapping r.consensusAddress = 0)
      ∧ totalPaid (distributeReward env s sender).transfers ≤ s.balance
      ∧ (distributeReward env s sender).state.balance
          = s.balance - totalPaid (distributeReward env s sender).transfers := by
  unfold distributeReward at hok ⊢
  obtain ⟨s1, log, hbody, hrun⟩ := transact_result_ok _ _ _ hok
  rw [hrun]
  obtain ⟨hb, hall⟩ := distributeRewardBody_ok _ _ _ _ _ hbody
  simp only [Nat.add_zero] at hb
  refine ⟨fun n i r hn hi hr _ => hall n i r hn hi hr, ?_, ?_⟩
  · simp only
    omega
  · simp only
    omega

/-- C4, a concrete case: 900 accrued for validator 201 (number 1 in its
record, power 1, no delegators) and a balance of 1000; the call pays 900 to
201, leaves nothing accrued and a balance of 100. -/
theorem distribute_success_witness :
    (distributeReward (exampleEnv 1 1 1) (exampleState 900 1000) 101).transfers
        = [⟨201, 900⟩]
      ∧ (distributeReward (exampleEnv 1 1 1) (exampleState 900 1000) 101).state.rewardMapping
          201 = 0
      ∧ (distributeReward (exampleEnv 1 1 1) (exampleState 900 1000) 101).state.balance
          = 100 := by
  have h := distribute_success (exampleEnv 1 1 1) (exampleState 900 1000) 101 (by decide)
  refine ⟨by decide, ?_, ?_⟩
  · exact h.1 1 0 ⟨201, 1, 0, false⟩ (by decide) (by decide) (by decide) (by decide)
  · rw [h.2.2]
    decide

end SystemReward

namespace SystemReward

/-! ## Frame lemmas: what the loops leave alone -/

theorem transfer_registry (env : Env) (s s1 : State) (recipient amount : Nat)
    (h : transfer env s recipient amount = .ok s1) :
    registry s1 = registry s ∧ s1.rewardMapping = s.rewardMapping := by
  unfold transfer at h
  split at h
  · exact absurd h (by simp)
  · split at h
    · exact absurd h (by simp)
    · split at h
      · exact absurd h (by simp)
      · simp only [Except.ok.injEq] at h
        subst h
        exact ⟨rfl, rfl⟩

theorem payDelegators_registry (env : Env) (v totalPower : Nat) :
    ∀ (l : List Address) (s s1 : State) (log log1 : List Transfer),
      payDelegators env v totalPower l s log = .ok (s1, log1) →
      registry s1 = registry s := by
  intro l
  induction l with
  | nil =>
    intro s s1 log log1 h
    simp only [payDelegators, Except.ok.injEq, Prod.mk.injEq] at h
    rw [h.1]
  | cons d rest ih =>
    intro s s1 log log1 h
    simp only [payDelegators] at h
    split at h
    · exact absurd h (by simp)
    · split at h
      · exact absurd h (by simp)
      · split at h
        · exact absurd h (by simp)
        · split at h
          · exact absurd h (by simp)
          · rename_i _ _ s2 htransfer
            exact (ih _ _ _ _ h).trans (transfer_registry _ _ _ _ _ htransfer).1

theorem distributeRewardTo_registry (env : Env) (s s1 : State) (v : Address)
    (paid : List Transfer) (h : distributeRewardTo env s v = .ok (s1, paid)) :
    registry s1 = registry s := by
  unfold distributeRewardTo at h
  split at h
  · exact absurd h (by simp)
  · split at h
    · exact absurd h (by simp)
    · split at h
      · exact absurd h (by simp)
      · split at h
        · exact absurd h (by simp)
        · split at h
          · exact absurd h (by simp)
          · split at h
            · exact absurd h (by simp)
            · split at h
              · exact absurd h (by simp)
              · split at h
                · exact absurd h (by simp)
                · split at h
                  · exact absurd h (by simp)
                  · rename_i _ _ s2 htransfer _ _ _
                    exact (payDelegators_registry _ _ _ _ _ _ _ _ h).trans
                      (transfer_registry _ _ _ _ _ htransfer).1

theorem payoutLoop_registry (env : Env) :
    ∀ (l : List Nat) (s s1 : State) (log log1 : List Transfer),
      payoutLoop env l s log = .ok (s1, log1) → registry s1 = registry s := by
  intro l
  induction l with
  | nil =>
    intro s s1 log log1 h
    simp only [payoutLoop, Except.ok.injEq, Prod.mk.injEq] at h
    rw [h.1]
  | cons i rest ih =>
    intro s s1 log log1 h
    simp only [payoutLoop] at h
    split at h
    · exact absurd h (by simp)
    · split at h
      · split at h
        · exact absurd h (by simp)
        · rename_i s2 paid hto
          have h1 := ih _ _ _ _ h
          have h2 := distributeRewardTo_registry _ _ _ _ _ hto
          exact h1.trans h2
      · exact ih _ _ _ _ h

theorem creditActive_registry (env : Env) (reward totalPower : Nat) :
    ∀ (l : List Nat) (s s1 : State),
      creditActive env reward totalPower l s = .ok s1 → registry s1 = registry s := by
  intro l
  induction l with
  | nil =>
    intro s s1 h
    simp only [creditActive, Except.ok.injEq] at h
    rw [h]
  | cons i rest ih =>
    intro s s1 h
    simp only [creditActive] at h
    split at h
    · exact absurd h (by simp)
    · split at h
      · exact ih _ _ h
      · split at h
        · exact absurd h (by simp)
        · split at h
          · exact absurd h (by simp)
          · split at h
            · exact absurd h (by simp)
            · split at h
              · exact absurd h (by simp)
              · have h1 := ih _ _ h
                exact h1

theorem distributeRewardBody_registry (env : Env) (sender : Address) (s s1 : State)
    (log : List Transfer) (h : distributeRewardBody env sender s = .ok (s1, log)) :
    registry s1 = registry s := by
  unfold distributeRewardBody at h
  split at h
  · exact absurd h (by simp)
  · split at h
    · exact absurd h (by simp)
    · split at h
      · exact absurd h (by simp)
      · split at h
        · exact absurd h (by simp)
        · split at h
          · exact absurd h (by simp)
          · exact payoutLoop_registry _ _ _ _ _ _ h

theorem allocateBody_registry (env : Env) (sender v : Address) (s s1 : State)
    (log : List Transfer)
    (h : AllocateJailValidatorRewardBody env sender v s = .ok (s1, log)) :
    registry s1 = registry s := by
  unfold AllocateJailValidatorRewardBody at h
  split at h
  · exact absurd h (by simp)
  · split at h
    · exact absurd h (by simp)
    · split at h
      · exact absurd h (by simp)
      · split at h
        · exact absurd h (by simp)
        · split at h
          · exact absurd h (by simp)
          · split at h
            · exact absurd h (by simp)
            · split at h
              · exact absurd h (by simp)
              · rename_i s2 hcredit
                simp only [Except.ok.injEq, Prod.mk.injEq] at h
                have h1 := creditActive_registry _ _ _ _ _ _ hcredit
                rw [← h.1]
                exact h1

theorem addRewardBody_registry (env : Env) (value v : Nat) (s s1 : State)
    (log : List Transfer) (h : addRewardBody env value v s = .ok (s1, log)) :
    registry s1 = registry s := by
  unfold addRewardBody at h
  split at h
  · exact absurd h (by simp)
  · split at h
    · exact absurd h (by simp)
    · split at h
      · exact absurd h (by simp)
      · split at h
        · exact absurd h (by simp)
        · split at h
          · exact absurd h (by simp)
          · split at h
            · exact absurd h (by simp)
            · split at h
              · exact absurd h (by simp)
              · simp only [Except.ok.injEq, Prod.mk.injEq] at h
                rw [← h.1]
                rfl

theorem transact_registry (s : State) (value : Nat)
    (body : State → Except Error (State × List Transfer))
    (hbody : ∀ s1 log, body { s with balance := s.balance + value } = .ok (s1, log) →
      registry s1 = registry { s with balance := s.balance + value }) :
    registry (transact s value body).state = registry s := by
  cases hb : body { s with balance := s.balance + value } with
  | error e => rw [transact_error _ _ _ _ hb]
  | ok p =>
    obtain ⟨s1, log⟩ := p
    rw [transact_ok _ _ _ _ _ hb]
    exact hbody s1 log hb

theorem transact_failed (s : State) (value : Nat)
    (body : State → Except Error (State × List Transfer)) (e : Error)
    (h : (transact s value body).result = .error e) :
    (transact s value body).state = s ∧ (transact s value body).transfers = [] := by
  cases hb : body { s with balance := s.balance + value } with
  | error e1 => rw [transact_error _ _ _ _ hb]; exact ⟨rfl, rfl⟩
  | ok p =>
    obtain ⟨s1, log⟩ := p
    rw [transact_ok _ _ _ _ _ hb] at h
    exact absurd h (by simp)

theorem init_twice (s : State) (sender a b c : Address) (hinit : s.alreadyInit = true) :
    init s sender a b c = ⟨.error .AlreadyInitialized, s, []⟩ := by
  unfold init
  apply transact_error
  simp [initBody, hinit]

/-! ## C15: the registry is written once -/

/-- C15: in a state that has been set up, no call changes the flag or any of
the recorded addresses: `init` fails, and `addReward`, `fund`,
`distributeReward` and `AllocateJailValidatorReward` leave the flag and the
six address slots as they are, whether they succeed or fail; the reads leave
the whole state as it is. -/
theorem registry_fixed (env : Env) (s : State) (sender v a b c value : Nat)
    (hinit : s.alreadyInit = true) :
    registry (init s sender a b c).state = registry s
      ∧ registry (addReward env s sender v value).state = registry s
      ∧ registry (fund s sender value).state = registry s
      ∧ registry (distributeReward env s sender).state = registry s
      ∧ registry (AllocateJailValidatorReward env s sender v).state = registry s
      ∧ (getBalance s sender).state = s
      ∧ (getTotalPower env s sender v).state = s
      ∧ (getTotalPowerExcludeUnbonding env s sender v).state = s
      ∧ (rewardMapping s sender v).state = s
      ∧ (alreadyInit s sender).state = s := by
  refine ⟨?_, ?_, ?_, ?_, ?_, rfl, rfl, rfl, rfl, rfl⟩
  · rw [init_twice s sender a b c hinit]
  · exact transact_registry _ _ _ (fun s1 log h => addRewardBody_registry _ _ _ _ _ _ h)
  · apply transact_registry
    intro s1 log h
    unfold fundBody at h
    split at h
    · exact absurd h (by simp)
    · simp only [Except.ok.injEq, Prod.mk.injEq] at h
      rw [← h.1]
  · exact transact_registry _ _ _ (fun s1 log h => distributeRewardBody_registry _ _ _ _ _ h)
  · exact transact_registry _ _ _ (fun s1 log h => allocateBody_registry _ _ _ _ _ _ h)

end SystemReward

namespace SystemReward

/-- C15, a concrete case: after a successful `distributeReward` and after a
second `init` with other addresses the registry still holds 101, 102, 103 and
the flag. -/
theorem registry_fixed_witness :
    registry (distributeReward (exampleEnv 1 1 1) (exampleState 900 1000) 101).state
        = (true, 101, 102, 103, 101, 102, 103)
      ∧ registry (init (exampleState 900 1000) 9 1 2 3).state
        = (true, 101, 102, 103, 101, 102, 103) := by
  have h := registry_fixed (exampleEnv 1 1 1) (exampleState 900 1000) 101 201 1 2 3 0
    (by decide)
  have h9 := registry_fixed (exampleEnv 1 1 1) (exampleState 900 1000) 9 201 1 2 3 0
    (by decide)
  rw [h.2.2.2.1, h9.1]
  exact ⟨by decide, by decide⟩

/-! ## C16: `fund` -/

/-- C16: in a state that has been set up, `fund` succeeds for every sender and
every attached value; the balance grows by the attached value and every
other part of the state, the ledger and the registry included, stays as it
is; no payment is made. -/
theorem fund_credits (s : State) (sender value : Nat) (hinit : s.alreadyInit = true) :
    fund s sender value = ⟨.ok (), { s with balance := s.balance + value }, []⟩ := by
  unfold fund
  apply transact_ok
  simp [fundBody, hinit]

/-- C16, a concrete case: sender 55, who is not the validator set, funds 500
on top of a balance of 1000; the 900 accrued for validator 201 stay. -/
theorem fund_credits_witness :
    (fund (exampleState 900 1000) 55 500).result = .ok ()
      ∧ (fund (exampleState 900 1000) 55 500).state.balance = 1500
      ∧ (fund (exampleState 900 1000) 55 500).state.rewardMapping 201 = 900
      ∧ registry (fund (exampleState 900 1000) 55 500).state
          = registry (exampleState 900 1000) := by
  rw [fund_credits (exampleState 900 1000) 55 500 (by decide)]
  decide

end SystemReward

namespace SystemReward

/-! ## C13: the kinds of failure -/

theorem staticCall_fault {α : Type} (x : Option α) (e : Error)
    (h : staticCall x = .error e) : e.isFault = true := by
  unfold staticCall at h
  split at h
  · exact absurd h (by simp)
  · cases h; rfl

theorem checkedAdd_fault (a b : Nat) (e : Error) (h : checkedAdd a b = .error e) :
    e.isFault = true := by
  unfold checkedAdd at h
  split at h
  · cases h; rfl
  · exact absurd h (by simp)

theorem checkedSub_fault (a b : Nat) (e : Error) (h : checkedSub a b = .error e) :
    e.isFault = true := by
  unfold checkedSub at h
  split at h
  · cases h; rfl
  · exact absurd h (by simp)

theorem checkedMul_fault (a b : Nat) (e : Error) (h : checkedMul a b = .error e) :
    e.isFault = true := by
  unfold checkedMul at h
  split at h
  · cases h; rfl
  · exact absurd h (by simp)

theorem checkedDiv_fault (a b : Nat) (e : Error) (h : checkedDiv a b = .error e) :
    e.isFault = true := by
  unfold checkedDiv at h
  split at h
  · cases h; rfl
  · exact absurd h (by simp)

theorem transfer_fault (env : Env) (s : State) (recipient amount : Nat) (e : Error)
    (h : transfer env s recipient amount = .error e) : e.isFault = true := by
  unfold transfer at h
  split at h
  · cases h; rfl
  · split at h
    · cases h; rfl
    · split at h
      · cases h; rfl
      · exact absurd h (by simp)

theorem sumAccrued_fault (env : Env) (s : State) :
    ∀ (l : List Nat) (total : Nat) (e : Error),
      sumAccrued env s l total = .error e → e.isFault = true := by
  intro l
  induction l with
  | nil =>
    intro total e h
    simp [sumAccrued] at h
  | cons i rest ih =>
    intro total e h
    simp only [sumAccrued] at h
    split at h
    · rename_i e1 h1
      cases h
      exact staticCall_fault _ _ h1
    · split at h
      · rename_i e1 h1
        cases h
        exact checkedAdd_fault _ _ _ h1
      · exact ih _ _ h

theorem sumActivePower_fault (env : Env) (s : State) :
    ∀ (l : List Nat) (total : Nat) (e : Error),
      sumActivePower env s l total = .error e → e.isFault = true := by
  intro l
  induction l with
  | nil =>
    intro total e h
    simp [sumActivePower] at h
  | cons i rest ih =>
    intro total e h
    simp only [sumActivePower] at h
    split at h
    · rename_i e1 h1
      cases h
      exact staticCall_fault _ _ h1
    · split at h
      · exact ih _ _ h
      · split at h
        · rename_i e1 h1
          cases h
          exact staticCall_fault _ _ h1
        · split at h
          · rename_i e1 h1
            cases h
            exact checkedAdd_fault _ _ _ h1
          · exact ih _ _ h

theorem creditActive_fault (env : Env) (reward totalPower : Nat) :
    ∀ (l : List Nat) (s : State) (e : Error),
      creditActive env reward totalPower l s = .error e → e.isFault = true := by
  intro l
  induction l with
  | nil =>
    intro s e h
    simp [creditActive] at h
  | cons i rest ih =>
    intro s e h
    simp only [creditActive] at h
    split at h
    · rename_i e1 h1
      cases h
      exact staticCall_fault _ _ h1
    · split at h
      · exact ih _ _ h
      · split at h
        · rename_i e1 h1
          cases h
          exact staticCall_fault _ _ h1
        · split at h
          · rename_i e1 h1
            cases h
            exact checkedMul_fault _ _ _ h1
          · split at h
            · rename_i e1 h1
              cases h
              exact checkedDiv_fault _ _ _ h1
            · split at h
              · rename_i e1 h1
                cases h
                exact checkedAdd_fault _ _ _ h1
              · exact ih _ _ h

theorem payDelegators_fault (env : Env) (v totalPower : Nat) :
    ∀ (l : List Address) (s : State) (log : List Transfer) (e : Error),
      payDelegators env v totalPower l s log = .error e → e.isFault = true := by
  intro l
  induction l with
  | nil =>
    intro s log e h
    simp [payDelegators] at h
  | cons d rest ih =>
    intro s log e h
    simp only [payDelegators] at h
    split at h
    · rename_i e1 h1
      cases h
      exact staticCall_fault _ _ h1
    · split at h
      · rename_i e1 h1
        cases h
        exact checkedMul_fault _ _ _ h1
      · split at h
        · rename_i e1 h1
          cases h
          exact checkedDiv_fault _ _ _ h1
        · split at h
          · rename_i e1 h1
            cases h
            exact transfer_fault _ _ _ _ _ h1
          · exact ih _ _ _ h

theorem distributeRewardTo_fault (env : Env) (s : State) (v : Address) (e : Error)
    (hinit : s.alreadyInit = true) (h : distributeRewardTo env s v = .error e) :
    e.isFault = true := by
  unfold distributeRewardTo at h
  split at h
  · rename_i hn
    simp [hinit] at hn
  · split at h
    · rename_i e1 h1
      cases h
      exact staticCall_fault _ _ h1
    · split at h
      · rename_i e1 h1
        cases h
        exact checkedSub_fault _ _ _ h1
      · split at h
        · rename_i e1 h1
          cases h
          exact staticCall_fault _ _ h1
        · split at h
          · rename_i e1 h1
            cases h
            exact staticCall_fault _ _ h1
          · split at h
            · rename_i e1 h1
              cases h
              exact checkedMul_fault _ _ _ h1
            · split at h
              · rename_i e1 h1
                cases h
                exact checkedDiv_fault _ _ _ h1
              · split at h
                · rename_i e1 h1
                  cases h
                  exact transfer_fault _ _ _ _ _ h1
                · split at h
                  · rename_i e1 h1
                    cases h
                    exact staticCall_fault _ _ h1
                  · exact payDelegators_fault _ _ _ _ _ _ _ h

theorem registry_alreadyInit (s s1 : State) (h : registry s1 = registry s) :
    s1.alreadyInit = s.alreadyInit := by
  simp only [registry, Prod.mk.injEq] at h
  exact h.1

theorem payoutLoop_fault (env : Env) :
    ∀ (l : List Nat) (s : State) (log : List Transfer) (e : Error),
      s.alreadyInit = true → payoutLoop env l s log = .error e → e.isFault = true := by
  intro l
  induction l with
  | nil =>
    intro s log e _ h
    simp [payoutLoop] at h
  | cons i rest ih =>
    intro s log e hinit h
    simp only [payoutLoop] at h
    split at h
    · rename_i e1 h1
      cases h
      exact staticCall_fault _ _ h1
    · split at h
      · split at h
        · rename_i e1 h1
          cases h
          exact distributeRewardTo_fault _ _ _ _ hinit h1
        · rename_i s2 paid hto
          have hreg := distributeRewardTo_registry _ _ _ _ _ hto
          have hinit2 := (registry_alreadyInit _ _ hreg).trans hinit
          exact ih _ _ _ (by exact hinit2) h
      · exact ih _ _ _ hinit h

theorem transact_result_error (s : State) (value : Nat)
    (body : State → Except Error (State × List Transfer)) (e : Error)
    (h : (transact s value body).result = .error e) :
    body { s with balance := s.balance + value } = .error e := by
  cases hb : body { s with balance := s.balance + value } with
  | error e1 =>
    rw [transact_error _ _ _ _ hb] at h
    simp only [Except.error.injEq] at h
    rw [h]
  | ok p =>
    obtain ⟨s1, log⟩ := p
    rw [transact_ok _ _ _ _ _ hb] at h
    exact absurd h (by simp)

theorem addRewardBody_kinds (env : Env) (value v : Nat) (s : State) (e : Error)
    (h : addRewardBody env value v s = .error e) :
    e = .NotInitialized ∨ e = .InactiveValidator ∨ e = .ZeroValueDeposit
      ∨ e.isFault = true := by
  unfold addRewardBody at h
  split at h
  · cases h; exact Or.inl rfl
  · split at h
    · rename_i e1 h1
      cases h
      exact Or.inr (Or.inr (Or.inr (staticCall_fault _ _ h1)))
    · split at h
      · cases h; exact Or.inr (Or.inl rfl)
      · split at h
        · cases h; exact Or.inr (Or.inr (Or.inl rfl))
        · split at h
          · rename_i e1 h1
            cases h
            exact Or.inr (Or.inr (Or.inr (checkedMul_fault _ _ _ h1)))
          · split at h
            · rename_i e1 h1
              cases h
              exact Or.inr (Or.inr (Or.inr (checkedDiv_fault _ _ _ h1)))
            · split at h
              · rename_i e1 h1
                cases h
                exact Or.inr (Or.inr (Or.inr (checkedAdd_fault _ _ _ h1)))
              · exact absurd h (by simp)

theorem distributeRewardBody_kinds (env : Env) (sender : Address) (s : State) (e : Error)
    (h : distributeRewardBody env sender s = .error e) :
    (e = .NotInitialized ∧ s.alreadyInit = false)
      ∨ (e = .Unauthorized ∧ sender ≠ s.BKCValidatorSetAddress)
      ∨ e = .InsufficientFunds ∨ e.isFault = true := by
  unfold distributeRewardBody at h
  split at h
  · rename_i hn
    cases h
    exact Or.inl ⟨rfl, by simpa using hn⟩
  · rename_i hn
    split at h
    · rename_i hs
      cases h
      exact Or.inr (Or.inl ⟨rfl, by simpa using hs⟩)
    · split at h
      · rename_i e1 h1
        cases h
        exact Or.inr (Or.inr (Or.inr (staticCall_fault _ _ h1)))
      · split at h
        · rename_i e1 h1
          cases h
          exact Or.inr (Or.inr (Or.inr (sumAccrued_fault _ _ _ _ _ h1)))
        · split at h
          · cases h; exact Or.inr (Or.inr (Or.inl rfl))
          · exact Or.inr (Or.inr (Or.inr
              (payoutLoop_fault _ _ _ _ _ (by simpa using hn) h)))

theorem allocateBody_kinds (env : Env) (sender v : Address) (s : State) (e : Error)
    (h : AllocateJailValidatorRewardBody env sender v s = .error e) :
    e = .NotInitialized ∨ e = .Unauthorized ∨ e.isFault = true := by
  unfold AllocateJailValidatorRewardBody at h
  split at h
  · cases h; exact Or.inl rfl
  · split at h
    · cases h; exact Or.inr (Or.inl rfl)
    · split at h
      · rename_i e1 h1
        cases h
        exact Or.inr (Or.inr (staticCall_fault _ _ h1))
      · split at h
        · rename_i e1 h1
          cases h
          exact Or.inr (Or.inr (sumActivePower_fault _ _ _ _ _ h1))
        · split at h
          · rename_i e1 h1
            cases h
            exact Or.inr (Or.inr (checkedMul_fault _ _ _ h1))
          · split at h
            · rename_i e1 h1
              cases h
              exact Or.inr (Or.inr (checkedDiv_fault _ _ _ h1))
            · split at h
              · rename_i e1 h1
                cases h
                exact Or.inr (Or.inr (creditActive_fault _ _ _ _ _ _ h1))
              · exact absurd h (by simp)

/-- C13, as the contract has it: a failure is one of the six named kinds or
one of three faults without a revert string of the contract (a panic of the
checked arithmetic, a collaborator that does not answer, a payment that is
turned down).  `init` fails only with `AlreadyInitialized`, `fund` only with
`NotInitialized`; `addReward` with `NotInitialized`, `InactiveValidator`,
`ZeroValueDeposit` or a fault; `AllocateJailValidatorReward` with
`NotInitialized`, `Unauthorized` or a fault; `distributeReward` with
`NotInitialized`, `Unauthorized`, `InsufficientFunds` or a fault, and when
the validator set calls it in a state that has been set up, with
`InsufficientFunds` or a fault. -/
theorem failure_kinds (env : Env) (s : State) (sender v a b c value : Nat) (e : Error) :
    ((init s sender a b c).result = .error e → e = .AlreadyInitialized)
      ∧ ((fund s sender value).result = .error e → e = .NotInitialized)
      ∧ ((addReward env s sender v value).result = .error e →
          e = .NotInitialized ∨ e = .InactiveValidator ∨ e = .ZeroValueDeposit
            ∨ e.isFault = true)
      ∧ ((AllocateJailValidatorReward env s sender v).result = .error e →
          e = .NotInitialized ∨ e = .Unauthorized ∨ e.isFault = true)
      ∧ ((distributeReward env s sender).result = .error e →
          e = .NotInitialized ∨ e = .Unauthorized ∨ e = .InsufficientFunds
            ∨ e.isFault = true)
      ∧ (s.alreadyInit = true → sender = s.BKCValidatorSetAddress →
          (distributeReward env s sender).result = .error e →
          e = .InsufficientFunds ∨ e.isFault = true) := by
  refine ⟨?_, ?_, ?_, ?_, ?_, ?_⟩
  · intro h
    have hb := transact_result_error _ _ _ _ h
    unfold initBody at hb
    split at hb
    · cases hb; rfl
    · exact absurd hb (by simp)
  · intro h
    have hb := transact_result_error _ _ _ _ h
    unfold fundBody at hb
    split at hb
    · cases hb; rfl
    · exact absurd hb (by simp)
  · intro h
    exact addRewardBody_kinds _ _ _ _ _ (transact_result_error _ _ _ _ h)
  · intro h
    exact allocateBody_kinds _ _ _ _ _ (transact_result_error _ _ _ _ h)
  · intro h
    rcases distributeRewardBody_kinds _ _ _ _ (transact_result_error _ _ _ _ h) with
      h1 | h1 | h1 | h1
    · exact Or.inl h1.1
    · exact Or.inr (Or.inl h1.1)
    · exact Or.inr (Or.inr (Or.inl h1))
    · exact Or.inr (Or.inr (Or.inr h1))
  · intro hinit hsender h
    rcases distributeRewardBody_kinds _ _ _ _ (transact_result_error _ _ _ _ h) with
      h1 | h1 | h1 | h1
    · have := h1.2
      simp [hinit] at this
    · exact absurd hsender h1.2
    · exact Or.inl h1
    · exact Or.inr h1

/-- C13, concrete cases: the validator set calls `distributeReward` in a state
that has been set up; with a balance of 899 for 900 accrued the failure is
`InsufficientFunds`, with the power 0 reported for validator 201 it is the
division-by-zero panic, a fault. -/
theorem failure_kinds_witness :
    (distributeReward (exampleEnv 1 1 1) (exampleState 900 899) 101).result
        = .error .InsufficientFunds
      ∧ (Error.InsufficientFunds = .InsufficientFunds
          ∨ Error.isFault .InsufficientFunds = true)
      ∧ (distributeReward (exampleEnv 1 1 0) (exampleState 900 1000) 101).result
        = .error (.Panic 0x12)
      ∧ (Error.Panic 0x12 = .InsufficientFunds ∨ Error.isFault (.Panic 0x12) = true) :=
  ⟨by decide,
    (failure_kinds (exampleEnv 1 1 1) (exampleState 900 899) 101 0 0 0 0 0
      .InsufficientFunds).2.2.2.2.2 (by decide) (by decide) (by decide),
    by decide,
    (failure_kinds (exampleEnv 1 1 0) (exampleState 900 1000) 101 0 0 0 0 0
      (.Panic 0x12)).2.2.2.2.2 (by decide) (by decide) (by decide)⟩

/-- C13 fails as stated: the validator set calls `distributeReward` in a state
that has been set up, validator 201 has 900 accrued and the validator pool
reports the power 0 for it; the call neither succeeds nor fails with
`InsufficientFunds`: the share `1 * 900 / 0` panics with the division-by-zero
code, which is none of the six kinds. -/
theorem failure_kinds_counterexample :
    (exampleState 900 1000).alreadyInit = true
      ∧ (exampleState 900 1000).BKCValidatorSetAddress = 101
      ∧ (distributeReward (exampleEnv 1 1 0) (exampleState 900 1000) 101).result
          = .error (.Panic 0x12)
      ∧ (distributeReward (exampleEnv 1 1 0) (exampleState 900 1000) 101).result ≠ .ok ()
      ∧ (distributeReward (exampleEnv 1 1 0) (exampleState 900 1000) 101).result
          ≠ .error .InsufficientFunds := by
  decide

end SystemReward

namespace SystemReward

/-! ## The answers about a validator with nothing accrued do not matter -/

end SystemReward

namespace SystemReward

/-! ## What a successful step computed -/

theorem staticCall_eq_ok {α : Type} (x : Option α) (a : α) (h : staticCall x = .ok a) :
    x = some a := by
  unfold staticCall at h
  split at h
  · simp only [Except.ok.injEq] at h
    rw [h]
  · exact absurd h (by simp)

theorem checkedAdd_eq_ok (a b x : Nat) (h : checkedAdd a b = .ok x) : x = a + b := by
  unfold checkedAdd at h
  split at h
  · exact absurd h (by simp)
  · simp only [Except.ok.injEq] at h
    exact h.symm

theorem checkedSub_eq_ok (a b x : Nat) (h : checkedSub a b = .ok x) :
    x = a - b ∧ b ≤ a := by
  unfold checkedSub at h
  split at h
  · exact absurd h (by simp)
  · rename_i hb
    simp only [Except.ok.injEq] at h
    exact ⟨h.symm, by omega⟩

theorem checkedMul_eq_ok (a b x : Nat) (h : checkedMul a b = .ok x) : x = a * b := by
  unfold checkedMul at h
  split at h
  · exact absurd h (by simp)
  · simp only [Except.ok.injEq] at h
    exact h.symm

theorem checkedDiv_eq_ok (a b x : Nat) (h : checkedDiv a b = .ok x) :
    x = a / b ∧ b ≠ 0 := by
  unfold checkedDiv at h
  split at h
  · exact absurd h (by simp)
  · rename_i hb
    simp only [Except.ok.injEq] at h
    exact ⟨h.symm, hb⟩

theorem registry_fields (s s1 : State) (h : registry s1 = registry s) :
    s1.validatorSet = s.validatorSet ∧ s1.stakePool = s.stakePool
      ∧ s1.validatorPool = s.validatorPool := by
  simp only [registry, Prod.mk.injEq] at h
  exact ⟨h.2.2.2.2.1, h.2.2.2.2.2.1, h.2.2.2.2.2.2⟩

theorem payDelegators_log (env : Env) (v totalPower : Nat) :
    ∀ (l : List Address) (s s1 : State) (log log1 : List Transfer),
      payDelegators env v totalPower l s log = .ok (s1, log1) →
      (∀ d ∈ l, (env.delegatorPower s.stakePool d v).isSome = true)
        ∧ log1 = log ++ l.map fun d =>
            ⟨d, delegatorPowerOf env s d v * s.rewardMapping v / totalPower⟩ := by
  intro l
  induction l with
  | nil =>
    intro s s1 log log1 h
    simp only [payDelegators, Except.ok.injEq, Prod.mk.injEq] at h
    simp [h.2]
  | cons d rest ih =>
    intro s s1 log log1 h
    simp only [payDelegators] at h
    split at h
    · exact absurd h (by simp)
    · rename_i power hpower
      split at h
      · exact absurd h (by simp)
      · rename_i scaled hscaled
        split at h
        · exact absurd h (by simp)
        · rename_i amount hamount
          split at h
          · exact absurd h (by simp)
          · rename_i s2 htransfer
            have hp := staticCall_eq_ok _ _ hpower
            have hs := checkedMul_eq_ok _ _ _ hscaled
            have ha := (checkedDiv_eq_ok _ _ _ hamount).1
            obtain ⟨hreg, hledger⟩ := transfer_registry _ _ _ _ _ htransfer
            have hpool := (registry_fields _ _ hreg).2.1
            obtain ⟨hsome, hlog⟩ := ih _ _ _ _ h
            constructor
            · intro d1 hd1
              rcases List.mem_cons.1 hd1 with h1 | h1
              · rw [h1, hp]; rfl
              · have := hsome d1 h1
                rwa [hpool] at this
            · rw [hlog, ha, hs]
              simp only [delegatorPowerOf, hp, hpool, hledger, Option.getD_some,
                List.map_cons, List.append_assoc, List.singleton_append]

theorem distributeRewardTo_payments (env : Env) (s s1 : State) (v : Address)
    (paid : List Transfer) (h : distributeRewardTo env s v = .ok (s1, paid)) :
    answersFor env s v ∧ paid = paymentsFor env s v := by
  unfold distributeRewardTo at h
  split at h
  · exact absurd h (by simp)
  · split at h
    · exact absurd h (by simp)
    · rename_i index hindex
      split at h
      · exact absurd h (by simp)
      · rename_i position hposition
        split at h
        · exact absurd h (by simp)
        · rename_i r hr
          split at h
          · exact absurd h (by simp)
          · rename_i totalPower hpower
            split at h
            · exact absurd h (by simp)
            · rename_i scaled hscaled
              split at h
              · exact absurd h (by simp)
              · rename_i amount hamount
                split at h
                · exact absurd h (by simp)
                · rename_i s2 htransfer
                  split at h
                  · exact absurd h (by simp)
                  · rename_i delegators hdelegators
                    have hi := staticCall_eq_ok _ _ hindex
                    obtain ⟨hpos, hle⟩ := checkedSub_eq_ok _ _ _ hposition
                    have hrec := staticCall_eq_ok _ _ hr
                    have hpow := staticCall_eq_ok _ _ hpower
                    have hs := checkedMul_eq_ok _ _ _ hscaled
                    obtain ⟨ha, hne⟩ := checkedDiv_eq_ok _ _ _ hamount
                    have hds := staticCall_eq_ok _ _ hdelegators
                    obtain ⟨hreg, hledger⟩ := transfer_registry _ _ _ _ _ htransfer
                    have hpool := (registry_fields _ _ hreg).2.1
                    obtain ⟨hsome, hlog⟩ := payDelegators_log _ _ _ _ _ _ _ _ h
                    have hrecord : recordOf env s v = some r := by
                      simp [recordOf, hi, ← hpos, hrec]
                    refine ⟨⟨⟨index, hi, hle⟩, ?_, ?_, ?_, ?_, ?_⟩, ?_⟩
                    · rw [hrecord]; rfl
                    · rw [hpow]; rfl
                    · simp [powerOf, hpow, hne]
                    · rw [hds]; rfl
                    · intro d hd
                      have hd1 : d ∈ delegators := by
                        simpa [delegatorsOf, hds] using hd
                      have := hsome d hd1
                      rwa [hpool] at this
                    · rw [hlog, ha, hs]
                      simp only [paymentsFor, paymentsOnBehalf, stakeOf, hrecord, powerOf, hpow,
                        delegatorsOf, hds, Option.map_some', Option.getD_some,
                        List.singleton_append, delegatorPowerOf, hpool, hledger]

end SystemReward

namespace SystemReward

/-! ## The payout loop, round by round -/

theorem paymentsFor_congr (env : Env) (s s1 : State) (v : Address)
    (hreg : registry s1 = registry s) (hledger : s1.rewardMapping v = s.rewardMapping v) :
    paymentsFor env s1 v = paymentsFor env s v := by
  obtain ⟨h1, h2, h3⟩ := registry_fields _ _ hreg
  simp only [paymentsFor, stakeOf, recordOf, powerOf, delegatorsOf, delegatorPowerOf,
    h1, h2, h3, hledger]

theorem answersFor_congr (env : Env) (s s1 : State) (v : Address)
    (hreg : registry s1 = registry s) : answersFor env s1 v ↔ answersFor env s v := by
  obtain ⟨h1, h2, h3⟩ := registry_fields _ _ hreg
  simp only [answersFor, stakeOf, recordOf, powerOf, delegatorsOf, delegatorPowerOf,
    h1, h2, h3]

theorem sharesFit_congr (env : Env) (s s1 : State) (v : Address)
    (hreg : registry s1 = registry s) : sharesFit env s1 v ↔ sharesFit env s v := by
  obtain ⟨h1, h2, h3⟩ := registry_fields _ _ hreg
  simp only [sharesFit, stakeOf, recordOf, powerOf, delegatorsOf, delegatorPowerOf,
    h1, h2, h3]

theorem listedAt_congr (env : Env) (s s1 : State) (l : List Nat) (v : Address)
    (hreg : registry s1 = registry s) : listedAt env s1 l v ↔ listedAt env s l v := by
  obtain ⟨h1, _, _⟩ := registry_fields _ _ hreg
  simp only [listedAt, h1]

theorem payoutLoop_rounds (env : Env) :
    ∀ (l : List Nat) (s s1 : State) (log log1 : List Transfer),
      payoutLoop env l s log = .ok (s1, log1) →
      ∃ order : List Address, order.Nodup
        ∧ (∀ c, c ∈ order ↔ listedAt env s l c ∧ 0 < s.rewardMapping c)
        ∧ (∀ c ∈ order, answersFor env s c)
        ∧ log1 = log ++ order.flatMap (paymentsFor env s) := by
  intro l
  induction l with
  | nil =>
    intro s s1 log log1 h
    simp only [payoutLoop, Except.ok.injEq, Prod.mk.injEq] at h
    refine ⟨[], List.nodup_nil, ?_, ?_, ?_⟩
    · intro c
      simp [listedAt]
    · intro c hc
      exact absurd hc (List.not_mem_nil c)
    · simp [h.2]
  | cons i rest ih =>
    intro s s1 log log1 h
    simp only [payoutLoop] at h
    cases hrec : env.currentValidatorSet s.validatorSet i with
    | none => simp [hrec, staticCall] at h
    | some r0 =>
      simp only [hrec, staticCall] at h
      by_cases hpos : s.rewardMapping r0.consensusAddress > 0
      · simp only [hpos, if_true] at h
        cases hto : distributeRewardTo env s r0.consensusAddress with
        | error e => simp [hto] at h
        | ok p =>
          obtain ⟨s2, paid⟩ := p
          simp only [hto] at h
          have hreg2 := distributeRewardTo_registry _ _ _ _ _ hto
          have hled := (distributeRewardTo_ok _ _ _ _ _ hto).1
          obtain ⟨hans, hpaid⟩ := distributeRewardTo_payments _ _ _ _ _ hto
          obtain ⟨order2, hnodup, hmem, hans2, hlog⟩ := ih _ _ _ _ h
          have hreg3 : registry
              { s2 with rewardMapping := Function.update s2.rewardMapping r0.consensusAddress 0 }
              = registry s := hreg2
          have hzero : ∀ c, c ≠ r0.consensusAddress →
              (Function.update s2.rewardMapping r0.consensusAddress 0) c = s.rewardMapping c := by
            intro c hc
            rw [Function.update_apply, if_neg hc, hled]
          have hnot : r0.consensusAddress ∉ order2 := by
            intro hin
            have := ((hmem _).1 hin).2
            simp at this
          have hne : ∀ c ∈ order2, c ≠ r0.consensusAddress := by
            intro c hc hcc
            rw [hcc] at hc
            exact hnot hc
          refine ⟨r0.consensusAddress :: order2, List.nodup_cons.2 ⟨hnot, hnodup⟩, ?_, ?_, ?_⟩
          · intro c
            constructor
            · intro hc
              rcases List.mem_cons.1 hc with h1 | h1
              · rw [h1]
                exact ⟨⟨i, List.mem_cons_self _ _, r0, hrec, rfl⟩, hpos⟩
              · obtain ⟨hl, hp⟩ := (hmem c).1 h1
                have hl1 := (listedAt_congr env s _ rest c hreg3).1 hl
                obtain ⟨j, hj, r, hjr, hrc⟩ := hl1
                refine ⟨⟨j, List.mem_cons_of_mem _ hj, r, hjr, hrc⟩, ?_⟩
                have := hzero c (hne c h1)
                simp only at hp
                rw [this] at hp
                exact hp
            · rintro ⟨⟨j, hj, r, hjr, hrc⟩, hp⟩
              by_cases hc : c = r0.consensusAddress
              · rw [hc]
                exact List.mem_cons_self _ _
              · apply List.mem_cons_of_mem
                apply (hmem c).2
                constructor
                · apply (listedAt_congr env s _ rest c hreg3).2
                  rcases List.mem_cons.1 hj with h1 | h1
                  · rw [h1, hrec] at hjr
                    cases hjr
                    exact absurd hrc.symm hc
                  · exact ⟨j, h1, r, hjr, hrc⟩
                · simp only
                  rw [hzero c hc]
                  exact hp
          · intro c hc
            rcases List.mem_cons.1 hc with h1 | h1
            · rw [h1]
              exact hans
            · exact (answersFor_congr env s _ c hreg3).1 (hans2 c h1)
          · rw [hlog, hpaid]
            simp only [List.flatMap_cons, List.append_assoc]
            congr 2
            apply List.flatMap_congr
            intro c hc
            exact paymentsFor_congr env s _ c hreg3 (hzero c (hne c hc))
      · simp only [hpos, if_false] at h
        obtain ⟨order, hnodup, hmem, hans, hlog⟩ := ih _ _ _ _ h
        refine ⟨order, hnodup, ?_, hans, hlog⟩
        intro c
        rw [hmem c]
        constructor
        · rintro ⟨⟨j, hj, r, hjr, hrc⟩, hp⟩
          exact ⟨⟨j, List.mem_cons_of_mem _ hj, r, hjr, hrc⟩, hp⟩
        · rintro ⟨⟨j, hj, r, hjr, hrc⟩, hp⟩
          refine ⟨?_, hp⟩
          rcases List.mem_cons.1 hj with h1 | h1
          · rw [h1, hrec] at hjr
            cases hjr
            rw [hrc] at hpos
            exact absurd hp hpos
          · exact ⟨j, h1, r, hjr, hrc⟩

end SystemReward

namespace SystemReward

/-! ## Rounded shares do not add up to more than the whole -/

theorem sum_div_le (xs : List Nat) (T : Nat) :
    (xs.map fun x => x / T).sum ≤ xs.sum / T := by
  induction xs with
  | nil => simp
  | cons x rest ih =>
    simp only [List.map_cons, List.sum_cons]
    exact le_trans (Nat.add_le_add_left ih _) (Nat.add_div_le_add_div x rest.sum T)

theorem sum_map_mul (xs : List Nat) (R : Nat) :
    (xs.map fun x => x * R).sum = xs.sum * R := by
  induction xs with
  | nil => simp
  | cons x rest ih =>
    simp only [List.map_cons, List.sum_cons, Nat.add_mul]
    rw [ih]

theorem sum_shares_le (xs : List Nat) (R T : Nat) (h : xs.sum ≤ T) :
    (xs.map fun x => x * R / T).sum ≤ R := by
  have h1 : (xs.map fun x => x * R / T).sum = ((xs.map fun x => x * R).map fun y => y / T).sum := by
    rw [List.map_map]
    rfl
  rw [h1]
  refine le_trans (sum_div_le _ T) ?_
  rw [sum_map_mul]
  exact Nat.div_le_of_le_mul (Nat.mul_le_mul_right R h)

theorem paymentsFor_total_le (env : Env) (s : State) (v : Address)
    (h : sharesFit env s v) : totalPaid (paymentsFor env s v) ≤ s.rewardMapping v := by
  have hsum := sum_shares_le
    (stakeOf env s v :: (delegatorsOf env s v).map fun d => delegatorPowerOf env s d v)
    (s.rewardMapping v) (powerOf env s v) (by simpa [sharesFit] using h)
  simpa [totalPaid, paymentsFor, paymentsOnBehalf, List.map_map, Function.comp_def] using hsum

theorem sumAccrued_step (env : Env) (s : State) (i : Nat) (rest : List Nat) (t total : Nat)
    (r : ValidatorRecord) (hrec : env.currentValidatorSet s.validatorSet i = some r)
    (h : sumAccrued env s (i :: rest) t = .ok total) :
    sumAccrued env s rest (t + s.rewardMapping r.consensusAddress) = .ok total := by
  simp only [sumAccrued, hrec, staticCall] at h
  split at h
  · exact absurd h (by simp)
  · rename_i t1 h1
    rw [← checkedAdd_eq_ok _ _ _ h1]
    exact h

theorem payoutLoop_total (env : Env) (s0 : State) :
    ∀ (l : List Nat) (s s1 : State) (log log1 : List Transfer) (t total : Nat),
      payoutLoop env l s log = .ok (s1, log1) →
      sumAccrued env s0 l t = .ok total →
      registry s = registry s0 →
      (∀ a, s.rewardMapping a ≤ s0.rewardMapping a) →
      (∀ c, listedAt env s0 l c → 0 < s.rewardMapping c → sharesFit env s0 c) →
      totalPaid log1 + t ≤ totalPaid log + total := by
  intro l
  induction l with
  | nil =>
    intro s s1 log log1 t total h hsum _ _ _
    simp only [payoutLoop, Except.ok.injEq, Prod.mk.injEq] at h
    simp only [sumAccrued, Except.ok.injEq] at hsum
    rw [← h.2, hsum]
  | cons i rest ih =>
    intro s s1 log log1 t total h hsum hreg hle hfit
    have hvs := (registry_fields _ _ hreg).1
    simp only [payoutLoop] at h
    cases hrec : env.currentValidatorSet s.validatorSet i with
    | none => simp [hrec, staticCall] at h
    | some r0 =>
      simp only [hrec, staticCall] at h
      have hsum1 := sumAccrued_step env s0 i rest t total r0 (by rw [← hvs]; exact hrec) hsum
      have hlisted : ∀ c, listedAt env s0 rest c → listedAt env s0 (i :: rest) c := by
        rintro c ⟨j, hj, r, hjr, hrc⟩
        exact ⟨j, List.mem_cons_of_mem _ hj, r, hjr, hrc⟩
      by_cases hpos : s.rewardMapping r0.consensusAddress > 0
      · simp only [hpos, if_true] at h
        cases hto : distributeRewardTo env s r0.consensusAddress with
        | error e => simp [hto] at h
        | ok p =>
          obtain ⟨s2, paid⟩ := p
          simp only [hto] at h
          have hreg2 := distributeRewardTo_registry _ _ _ _ _ hto
          have hled := (distributeRewardTo_ok _ _ _ _ _ hto).1
          obtain ⟨_, hpaid⟩ := distributeRewardTo_payments _ _ _ _ _ hto
          have hfit0 : sharesFit env s r0.consensusAddress :=
            (sharesFit_congr env s0 s _ hreg).2
              (hfit _ ⟨i, List.mem_cons_self _ _, r0, by rw [← hvs]; exact hrec, rfl⟩ hpos)
          have hbound := paymentsFor_total_le env s _ hfit0
          rw [← hpaid] at hbound
          have hih := ih _ _ _ _ _ _ h hsum1 (hreg2.trans hreg)
            (by
              intro a
              simp only [Function.update_apply]
              split
              · exact Nat.zero_le _
              · rw [hled]; exact hle a)
            (by
              intro c hc hp
              apply hfit c (hlisted c hc)
              simp only [Function.update_apply] at hp
              split at hp
              · exact absurd hp (by decide)
              · rw [hled] at hp; exact hp)
          rw [totalPaid_append] at hih
          have := hle r0.consensusAddress
          omega
      · simp only [hpos, if_false] at h
        have hih := ih _ _ _ _ _ _ h hsum1 hreg hle (fun c hc hp => hfit c (hlisted c hc) hp)
        omega

/-! ## Sums over finite sets of validators -/

theorem sum_update_zero (f : Address → Nat) (v : Address) (F : Finset Address) :
    F.sum (Function.update f v 0) = (F.erase v).sum f := by
  rw [← Finset.sum_erase F (a := v) (by simp)]
  apply Finset.sum_congr rfl
  intro x hx
  rw [Function.update_apply, if_neg (Finset.ne_of_mem_erase hx)]

theorem sum_update_add_le (f : Address → Nat) (v : Address) (c : Nat) (F : Finset Address) :
    F.sum (Function.update f v (f v + c)) ≤ F.sum f + c := by
  have h1 : ∀ x ∈ F, Function.update f v (f v + c) x ≤ f x + (if v = x then c else 0) := by
    intro x _
    rw [Function.update_apply]
    by_cases hx : x = v
    · simp [hx]
    · simp [hx, Ne.symm hx]
  refine le_trans (Finset.sum_le_sum h1) ?_
  rw [Finset.sum_add_distrib, Finset.sum_ite_eq]
  exact Nat.add_le_add_left (by split <;> omega) _

theorem covered_erase (s : State) (h : ledgerCovered s) (v : Address) (F : Finset Address) :
    (F.erase v).sum s.rewardMapping + s.rewardMapping v ≤ s.balance := by
  have h1 := h (insert v (F.erase v))
  rw [Finset.sum_insert (Finset.not_mem_erase v F)] at h1
  rw [Nat.add_comm]
  exact h1

end SystemReward

namespace SystemReward

/-! ## C11 and C20: what a successful `distributeReward` pays -/

theorem distributeRewardBody_steps (env : Env) (sender : Address) (s s1 : State)
    (log : List Transfer) (h : distributeRewardBody env sender s = .ok (s1, log)) :
    ∃ n total, env.validatorSetLength s.validatorSet = some n
      ∧ sumAccrued env s (List.range n) 0 = .ok total ∧ total ≤ s.balance
      ∧ payoutLoop env (List.range n) s [] = .ok (s1, log) := by
  unfold distributeRewardBody at h
  split at h
  · exact absurd h (by simp)
  · split at h
    · exact absurd h (by simp)
    · split at h
      · exact absurd h (by simp)
      · rename_i n hn
        split at h
        · exact absurd h (by simp)
        · rename_i total htotal
          split at h
          · exact absurd h (by simp)
          · rename_i hbal
            exact ⟨n, total, staticCall_eq_ok _ _ hn, htotal, by omega, h⟩

theorem distributeReward_steps (env : Env) (s : State) (sender : Address)
    (hok : (distributeReward env s sender).result = .ok ()) :
    ∃ n total s1, env.validatorSetLength s.validatorSet = some n
      ∧ sumAccrued env s (List.range n) 0 = .ok total ∧ total ≤ s.balance
      ∧ payoutLoop env (List.range n) s [] = .ok (s1, (distributeReward env s sender).transfers)
      ∧ (distributeReward env s sender).state = s1 := by
  unfold distributeReward at hok ⊢
  obtain ⟨s1, log, hbody, hrun⟩ := transact_result_ok _ _ _ hok
  rw [hrun]
  obtain ⟨n, total, hn, htotal, hbal, hloop⟩ := distributeRewardBody_steps _ _ _ _ _ hbody
  have hs : ({ s with balance := s.balance + 0 } : State) = s := rfl
  rw [hs] at hn htotal hbal hloop
  exact ⟨n, total, s1, hn, htotal, hbal, hloop, rfl⟩

theorem flatMap_split {α β : Type} (f : α → List β) (l : List α) (a : α) (h : a ∈ l) :
    ∃ before after, l.flatMap f = before ++ f a ++ after := by
  obtain ⟨l1, l2, hl⟩ := List.append_of_mem h
  refine ⟨l1.flatMap f, l2.flatMap f, ?_⟩
  rw [hl, List.flatMap_append, List.flatMap_cons, List.append_assoc]

/-- C11, as the contract has it: a successful `distributeReward` makes exactly
one payout round for each validator that the validator set lists and that
has a positive accrued amount (the rounds follow a list without repetition
of exactly those validators).  The round for validator `v` first pays `v`
the amount `s_v * R_v / T_v`, rounded down, where `R_v` is the accrued
amount, `s_v` the number in the record of `v` and `T_v` its power, and then
pays the delegators of `v`; the payment to `v` is `R_v` when `s_v = T_v`. -/
theorem payout_rounds (env : Env) (s : State) (sender : Address)
    (hok : (distributeReward env s sender).result = .ok ()) :
    ∃ (n : Nat) (order : List Address),
      env.validatorSetLength s.validatorSet = some n ∧ order.Nodup
      ∧ (∀ v, v ∈ order ↔ listedAt env s (List.range n) v ∧ 0 < s.rewardMapping v)
      ∧ (distributeReward env s sender).transfers
          = order.flatMap (fun v =>
              ⟨v, stakeOf env s v * s.rewardMapping v / powerOf env s v⟩ ::
                (delegatorsOf env s v).map fun d =>
                  ⟨d, delegatorPowerOf env s d v * s.rewardMapping v / powerOf env s v⟩)
      ∧ (∀ v ∈ order, answersFor env s v
          ∧ (stakeOf env s v = powerOf env s v →
              stakeOf env s v * s.rewardMapping v / powerOf env s v = s.rewardMapping v)) := by
  obtain ⟨n, total, s1, hn, _, _, hloop, _⟩ := distributeReward_steps env s sender hok
  obtain ⟨order, hnodup, hmem, hans, hlog⟩ := payoutLoop_rounds _ _ _ _ _ _ hloop
  refine ⟨n, order, hn, hnodup, hmem, ?_, ?_⟩
  · rw [hlog]
    rfl
  · intro v hv
    refine ⟨hans v hv, ?_⟩
    intro heq
    have hne : powerOf env s v ≠ 0 := (hans v hv).2.2.2.1
    rw [heq]
    exact Nat.mul_div_cancel_left _ (Nat.pos_of_ne_zero hne)

/-- C11, a concrete case: validator 201 (900 accrued, number 3, power 6,
delegators 301 and 302 with the powers 2 and 1) and validator 202 (100
accrued, number 1, power 1).  There is one round for each; 201 is paid
`3 * 900 / 6 = 450` and 202 is paid `1 * 100 / 1 = 100`. -/
theorem payout_rounds_witness :
    (∃ order : List Address, order.Nodup
        ∧ (distributeReward (delegatedWorld []) (ledgerState (twoLedger 900 100) 1000)
            101).transfers
          = order.flatMap (paymentsFor (delegatedWorld [])
              (ledgerState (twoLedger 900 100) 1000)))
      ∧ (distributeReward (delegatedWorld []) (ledgerState (twoLedger 900 100) 1000)
          101).transfers = [⟨201, 450⟩, ⟨301, 300⟩, ⟨302, 150⟩, ⟨202, 100⟩] := by
  obtain ⟨n, order, _, hnodup, _, hlog, _⟩ := payout_rounds (delegatedWorld [])
    (ledgerState (twoLedger 900 100) 1000) 101 (by decide)
  exact ⟨⟨order, hnodup, hlog⟩, by decide⟩

/-- C11 fails as stated: validator 201 is listed with 900 accrued, the number 1
in its record and the power 2; the call succeeds and the only payment is 450
to validator 201, not the accrued 900. -/
theorem payout_rounds_counterexample :
    (exampleEnv 1 1 2).currentValidatorSet (exampleState 900 1000).validatorSet 0
        = some ⟨201, 1, 0, false⟩
      ∧ (exampleState 900 1000).rewardMapping 201 = 900
      ∧ (distributeReward (exampleEnv 1 1 2) (exampleState 900 1000) 101).result = .ok ()
      ∧ (distributeReward (exampleEnv 1 1 2) (exampleState 900 1000) 101).transfers
          = [⟨201, 450⟩]
      ∧ (distributeReward (exampleEnv 1 1 2) (exampleState 900 1000) 101).state.rewardMapping
          201 = 0 := by
  decide

/-- C20: in a successful `distributeReward`, for every validator `v` that the
validator set lists and that has a positive accrued amount `R_v`, the
collaborators have answered, and the payments of the call contain, one after
the other, `s_v * R_v / T_v` to `v` and `p_d * R_v / T_v` to every delegator
`d` of `v` (rounded down), where `s_v` is the number in the record of `v`,
`p_d` the power of `d` for `v` and `T_v` the power of `v`, unbonding excluded;
when `s_v` and the `p_d` add up to no more than `T_v`, those payments add up
to no more than `R_v`; and when that holds for every such validator, the
call pays out no more than the total of accrued amounts that the balance has
been checked against. -/
theorem payout_shares (env : Env) (s : State) (sender : Address) (n : Nat)
    (hok : (distributeReward env s sender).result = .ok ())
    (hlen : env.validatorSetLength s.validatorSet = some n) :
    (∀ v, listedAt env s (List.range n) v → 0 < s.rewardMapping v →
        answersFor env s v
          ∧ (∃ before after, (distributeReward env s sender).transfers
              = before ++
                (⟨v, stakeOf env s v * s.rewardMapping v / powerOf env s v⟩ ::
                  (delegatorsOf env s v).map fun d =>
                    ⟨d, delegatorPowerOf env s d v * s.rewardMapping v / powerOf env s v⟩)
                ++ after)
          ∧ (sharesFit env s v →
              stakeOf env s v * s.rewardMapping v / powerOf env s v
                + ((delegatorsOf env s v).map fun d =>
                    delegatorPowerOf env s d v * s.rewardMapping v / powerOf env s v).sum
                ≤ s.rewardMapping v))
      ∧ ((∀ v, listedAt env s (List.range n) v → 0 < s.rewardMapping v → sharesFit env s v) →
          ∃ total, sumAccrued env s (List.range n) 0 = .ok total ∧ total ≤ s.balance
            ∧ totalPaid (distributeReward env s sender).transfers ≤ total) := by
  obtain ⟨n1, total, s1, hn, htotal, hbal, hloop, _⟩ := distributeReward_steps env s sender hok
  rw [hlen] at hn
  cases hn
  constructor
  · intro v hlisted hpos
    obtain ⟨order, _, hmem, hans, hlog⟩ := payoutLoop_rounds _ _ _ _ _ _ hloop
    have hv : v ∈ order := (hmem v).2 ⟨hlisted, hpos⟩
    refine ⟨hans v hv, ?_, ?_⟩
    · obtain ⟨before, after, hsplit⟩ := flatMap_split (paymentsFor env s) order v hv
      refine ⟨before, after, ?_⟩
      rw [hlog, hsplit]
      rfl
    · intro hfit
      have := paymentsFor_total_le env s v hfit
      simpa [totalPaid, paymentsFor, paymentsOnBehalf, List.map_map, Function.comp_def]
        using this
  · intro hfit
    refine ⟨total, htotal, hbal, ?_⟩
    have := payoutLoop_total env s _ _ _ _ _ _ _ hloop htotal rfl (fun a => le_refl _) hfit
    simpa [totalPaid] using this

/-- C20, a concrete case: validator 201 with 900 accrued, the number 3 in its
record, the power 6 and the delegators 301 and 302 with the powers 2 and 1.
The payments 450, 300 and 150 are made and add up to no more than 900. -/
theorem payout_shares_witness :
    answersFor (delegatedWorld []) (ledgerState (twoLedger 900 100) 1000) 201
      ∧ (∃ before after,
          (distributeReward (delegatedWorld []) (ledgerState (twoLedger 900 100) 1000)
            101).transfers
          = before ++ ([⟨201, 450⟩, ⟨301, 300⟩, ⟨302, 150⟩] : List Transfer) ++ after)
      ∧ 450 + ([300, 150] : List Nat).sum ≤ 900 := by
  have h := (payout_shares (delegatedWorld []) (ledgerState (twoLedger 900 100) 1000) 101 2
    (by decide) (by decide)).1 201 ⟨0, by decide, ⟨201, 3, 0, false⟩, by decide, rfl⟩
    (by decide)
  exact ⟨h.1, h.2.1, h.2.2 (by unfold sharesFit; decide)⟩

end SystemReward

namespace SystemReward

/-! ## C19: the shares credited by `AllocateJailValidatorReward` -/

theorem activeRecords_cons (env : Env) (s : State) (i : Nat) (rest : List Nat)
    (r : ValidatorRecord) (hrec : env.currentValidatorSet s.validatorSet i = some r) :
    activeRecords env s (i :: rest)
      = if r.jailed then activeRecords env s rest else r :: activeRecords env s rest := by
  simp only [activeRecords, List.filterMap_cons, hrec, List.filter_cons]
  cases r.jailed <;> simp

theorem sumActivePower_eq (env : Env) (s : State) :
    ∀ (l : List Nat) (t total : Nat), sumActivePower env s l t = .ok total →
      (∀ i ∈ l, (env.currentValidatorSet s.validatorSet i).isSome = true)
        ∧ total = t + ((activeRecords env s l).map fun r =>
            powerOf env s r.consensusAddress).sum := by
  intro l
  induction l with
  | nil =>
    intro t total h
    simp only [sumActivePower, Except.ok.injEq] at h
    simp [activeRecords, h]
  | cons i rest ih =>
    intro t total h
    simp only [sumActivePower] at h
    split at h
    · exact absurd h (by simp)
    · rename_i r hr
      have hrec := staticCall_eq_ok _ _ hr
      rw [activeRecords_cons env s i rest r hrec]
      split at h
      · rename_i hj
        obtain ⟨hsome, hsum⟩ := ih _ _ h
        refine ⟨?_, by simpa [hj] using hsum⟩
        intro j hjm
        rcases List.mem_cons.1 hjm with h1 | h1
        · rw [h1, hrec]; rfl
        · exact hsome j h1
      · rename_i hj
        split at h
        · exact absurd h (by simp)
        · rename_i power hpower
          split at h
          · exact absurd h (by simp)
          · rename_i t1 ht1
            have hp := staticCall_eq_ok _ _ hpower
            have ht := checkedAdd_eq_ok _ _ _ ht1
            obtain ⟨hsome, hsum⟩ := ih _ _ h
            constructor
            · intro j hjm
              rcases List.mem_cons.1 hjm with h1 | h1
              · rw [h1, hrec]; rfl
              · exact hsome j h1
            · rw [hsum, ht]
              simp [hj, powerOf, hp, Nat.add_assoc]

theorem creditActive_ledger (env : Env) (reward totalPower : Nat) :
    ∀ (l : List Nat) (s s1 : State), creditActive env reward totalPower l s = .ok s1 →
      ∀ a, s1.rewardMapping a = s.rewardMapping a + creditFor env s reward totalPower l a := by
  intro l
  induction l with
  | nil =>
    intro s s1 h a
    simp only [creditActive, Except.ok.injEq] at h
    simp [creditFor, activeRecords, h]
  | cons i rest ih =>
    intro s s1 h a
    simp only [creditActive] at h
    split at h
    · exact absurd h (by simp)
    · rename_i r hr
      have hrec := staticCall_eq_ok _ _ hr
      have hcons := activeRecords_cons env s i rest r hrec
      split at h
      · rename_i hj
        rw [ih _ _ h a]
        simp only [creditFor, hcons, hj, if_true]
      · rename_i hj
        split at h
        · exact absurd h (by simp)
        · rename_i power hpower
          split at h
          · exact absurd h (by simp)
          · rename_i scaled hscaled
            split at h
            · exact absurd h (by simp)
            · rename_i share hshare
              split at h
              · exact absurd h (by simp)
              · rename_i accrued haccrued
                have hp := staticCall_eq_ok _ _ hpower
                have hs := checkedMul_eq_ok _ _ _ hscaled
                have hsh := (checkedDiv_eq_ok _ _ _ hshare).1
                have hacc := checkedAdd_eq_ok _ _ _ haccrued
                have hih := ih _ _ h a
                change s1.rewardMapping a
                  = (Function.update s.rewardMapping r.consensusAddress accrued) a
                    + creditFor env s reward totalPower rest a at hih
                rw [hih]
                have hshare1 : shareOf env s reward totalPower r = share := by
                  simp [shareOf, powerOf, hp, hsh, hs]
                simp only [creditFor, hcons, hj, Function.update_apply]
                by_cases ha : a = r.consensusAddress
                · simp [ha, hacc, hshare1, Nat.add_assoc]
                · simp [ha, Ne.symm ha]

theorem sum_fibers_le (g : ValidatorRecord → Nat) (F : Finset Address) :
    ∀ L : List ValidatorRecord,
      F.sum (fun a => ((L.filter fun r => r.consensusAddress = a).map g).sum)
        ≤ (L.map g).sum := by
  intro L
  induction L with
  | nil => simp
  | cons r rest ih =>
    have h1 : ∀ a ∈ F, (((r :: rest).filter fun r => r.consensusAddress = a).map g).sum
        ≤ (if r.consensusAddress = a then g r else 0)
          + ((rest.filter fun r => r.consensusAddress = a).map g).sum := by
      intro a _
      by_cases ha : r.consensusAddress = a
      · simp [List.filter_cons, ha]
      · simp [List.filter_cons, ha]
    refine le_trans (Finset.sum_le_sum h1) ?_
    rw [Finset.sum_add_distrib, Finset.sum_ite_eq]
    simp only [List.map_cons, List.sum_cons]
    exact Nat.add_le_add (by split <;> omega) ih

theorem shares_total_le (env : Env) (s : State) (reward : Nat) (L : List ValidatorRecord) :
    (L.map (shareOf env s reward
        ((L.map fun r => powerOf env s r.consensusAddress).sum))).sum ≤ reward := by
  have h := sum_shares_le (L.map fun r => powerOf env s r.consensusAddress) reward
    ((L.map fun r => powerOf env s r.consensusAddress).sum) (le_refl _)
  simpa [shareOf, List.map_map, Function.comp_def, Nat.mul_comm] using h

theorem allocateBody_steps (env : Env) (sender v : Address) (s s1 : State)
    (log : List Transfer)
    (h : AllocateJailValidatorRewardBody env sender v s = .ok (s1, log)) :
    ∃ n totalPower s2, env.validatorSetLength s.validatorSet = some n
      ∧ sumActivePower env s (List.range n) 0 = .ok totalPower
      ∧ creditActive env (s.rewardMapping v * 90 / 100) totalPower (List.range n) s = .ok s2
      ∧ s1 = { s2 with rewardMapping := Function.update s2.rewardMapping v 0 } := by
  unfold AllocateJailValidatorRewardBody at h
  split at h
  · exact absurd h (by simp)
  · split at h
    · exact absurd h (by simp)
    · split at h
      · exact absurd h (by simp)
      · rename_i n hn
        split at h
        · exact absurd h (by simp)
        · rename_i totalPower htotal
          split at h
          · exact absurd h (by simp)
          · rename_i scaled hscaled
            split at h
            · exact absurd h (by simp)
            · rename_i reward hreward
              split at h
              · exact absurd h (by simp)
              · rename_i s2 hcredit
                have hs := checkedMul_eq_ok _ _ _ hscaled
                have hr := (checkedDiv_eq_ok _ _ _ hreward).1
                simp only [Except.ok.injEq, Prod.mk.injEq] at h
                refine ⟨n, totalPower, s2, staticCall_eq_ok _ _ hn, htotal, ?_, h.1.symm⟩
                rw [← hs, ← hr]
                exact hcredit

theorem allocateBody_sums (env : Env) (sender v : Address) (s s1 : State)
    (log : List Transfer)
    (h : AllocateJailValidatorRewardBody env sender v s = .ok (s1, log))
    (F : Finset Address) (hv : v ∈ F) :
    F.sum s1.rewardMapping ≤ F.sum s.rewardMapping := by
  obtain ⟨n, totalPower, s2, _, htotal, hcredit, hs1⟩ := allocateBody_steps _ _ _ _ _ _ h
  have hT := (sumActivePower_eq _ _ _ _ _ htotal).2
  rw [Nat.zero_add] at hT
  have hledger := creditActive_ledger _ _ _ _ _ _ hcredit
  rw [hs1]
  simp only
  rw [sum_update_zero, ← Finset.sum_erase_add F s.rewardMapping hv]
  have h1 : (F.erase v).sum s2.rewardMapping
      = (F.erase v).sum s.rewardMapping
        + (F.erase v).sum
            (creditFor env s (s.rewardMapping v * 90 / 100) totalPower (List.range n)) := by
    rw [← Finset.sum_add_distrib]
    exact Finset.sum_congr rfl (fun a _ => hledger a)
  rw [h1]
  apply Nat.add_le_add_left
  have h2 := sum_fibers_le (shareOf env s (s.rewardMapping v * 90 / 100) totalPower)
    (F.erase v) (activeRecords env s (List.range n))
  have h3 := shares_total_le env s (s.rewardMapping v * 90 / 100)
    (activeRecords env s (List.range n))
  rw [← hT] at h3
  have h4 : s.rewardMapping v * 90 / 100 ≤ s.rewardMapping v :=
    Nat.div_le_of_le_mul (by omega)
  exact le_trans (le_trans h2 h3) h4

/-- C19: when `AllocateJailValidatorReward` for `v` succeeds, with `R` accrued
for `v`, `n` records in the validator set, `R1 = R * 90 / 100` and `T` the
sum of the powers (unbonding excluded) of the records whose flag is not set:
every record has been answered; the entry of `v` is 0 afterwards; the entry
of every other validator `a` has grown by `R1 * p / T`, rounded down, once
for each record without flag that names `a`, `p` being the power of `a`; the
shares credited add up to no more than `R1`, which is no more than `R`; and
over every finite set of validators that contains `v`, the entries after the
call add up to no more than the entries before it. -/
theorem allocate_shares (env : Env) (s : State) (sender v : Address) (n : Nat)
    (hok : (AllocateJailValidatorReward env s sender v).result = .ok ())
    (hlen : env.validatorSetLength s.validatorSet = some n) :
    (∀ i, i < n → (env.currentValidatorSet s.validatorSet i).isSome = true)
      ∧ (AllocateJailValidatorReward env s sender v).state.rewardMapping v = 0
      ∧ (∀ a, a ≠ v →
          (AllocateJailValidatorReward env s sender v).state.rewardMapping a
            = s.rewardMapping a
              + creditFor env s (s.rewardMapping v * 90 / 100)
                  ((activeRecords env s (List.range n)).map fun r =>
                    powerOf env s r.consensusAddress).sum
                  (List.range n) a)
      ∧ ((activeRecords env s (List.range n)).map
            (shareOf env s (s.rewardMapping v * 90 / 100)
              ((activeRecords env s (List.range n)).map fun r =>
                powerOf env s r.consensusAddress).sum)).sum
          ≤ s.rewardMapping v * 90 / 100
      ∧ s.rewardMapping v * 90 / 100 ≤ s.rewardMapping v
      ∧ (∀ F : Finset Address, v ∈ F →
          F.sum (AllocateJailValidatorReward env s sender v).state.rewardMapping
            ≤ F.sum s.rewardMapping) := by
  unfold AllocateJailValidatorReward at hok ⊢
  obtain ⟨s1, log, hbody, hrun⟩ := transact_result_ok _ _ _ hok
  rw [hrun]
  have hs : ({ s with balance := s.balance + 0 } : State) = s := rfl
  rw [hs] at hbody
  obtain ⟨n1, totalPower, s2, hn, htotal, hcredit, hs1⟩ := allocateBody_steps _ _ _ _ _ _ hbody
  rw [hlen] at hn
  cases hn
  obtain ⟨hsome, hT⟩ := sumActivePower_eq _ _ _ _ _ htotal
  rw [Nat.zero_add] at hT
  have hledger := creditActive_ledger _ _ _ _ _ _ hcredit
  refine ⟨fun i hi => hsome i (List.mem_range.2 hi), ?_, ?_, ?_, ?_, ?_⟩
  · rw [hs1]
    simp
  · intro a ha
    rw [hs1]
    simp only [Function.update_apply, if_neg ha]
    rw [hledger a, hT]
  · exact shares_total_le env s _ _
  · exact Nat.div_le_of_le_mul (by omega)
  · intro F hv
    exact allocateBody_sums _ _ _ _ _ _ hbody F hv

/-- C19, a concrete case: the validator set lists 201 (power 1), 202 (power 2)
and 203, whose flag is set and for which 1000 is accrued.  Then `R1 = 900`,
`T = 3`, and after the call 300 is accrued for 201, 600 for 202 and nothing
for 203. -/
theorem allocate_shares_witness :
    (AllocateJailValidatorReward jailWorld
        (ledgerState (fun v => if v = 203 then 1000 else 0) 1000) 101 203).state.rewardMapping
        203 = 0
      ∧ (AllocateJailValidatorReward jailWorld
          (ledgerState (fun v => if v = 203 then 1000 else 0) 1000) 101 203).state.rewardMapping
          201 = 300
      ∧ (AllocateJailValidatorReward jailWorld
          (ledgerState (fun v => if v = 203 then 1000 else 0) 1000) 101 203).state.rewardMapping
          202 = 600 := by
  have h := allocate_shares jailWorld (ledgerState (fun v => if v = 203 then 1000 else 0) 1000)
    101 203 3 (by decide) (by decide)
  refine ⟨h.2.1, ?_, ?_⟩
  · rw [h.2.2.1 201 (by decide)]
    decide
  · rw [h.2.2.1 202 (by decide)]
    decide

end SystemReward

namespace SystemReward

/-! ## C14: the ledger is covered by the balance -/

theorem support_sum_le (f : Address → Nat) (S : Finset Address)
    (h : ∀ x, x ∉ S → f x = 0) (F : Finset Address) : F.sum f ≤ S.sum f := by
  have h1 : F.sum f ≤ (F ∪ S).sum f :=
    Finset.sum_le_sum_of_subset Finset.subset_union_left
  have h2 : S.sum f = (F ∪ S).sum f :=
    Finset.sum_subset Finset.subset_union_right (fun x _ hx => h x hx)
  rw [h2]
  exact h1

theorem addRewardBody_steps (env : Env) (value v : Nat) (s s1 : State) (log : List Transfer)
    (h : addRewardBody env value v s = .ok (s1, log)) :
    s1 = { s with rewardMapping :=
      Function.update s.rewardMapping v (s.rewardMapping v + value * 90 / 100) } := by
  unfold addRewardBody at h
  split at h
  · exact absurd h (by simp)
  · split at h
    · exact absurd h (by simp)
    · split at h
      · exact absurd h (by simp)
      · split at h
        · exact absurd h (by simp)
        · split at h
          · exact absurd h (by simp)
          · rename_i scaled hscaled
            split at h
            · exact absurd h (by simp)
            · rename_i credit hcredit
              split at h
              · exact absurd h (by simp)
              · rename_i accrued haccrued
                have hs := checkedMul_eq_ok _ _ _ hscaled
                have hc := (checkedDiv_eq_ok _ _ _ hcredit).1
                have ha := checkedAdd_eq_ok _ _ _ haccrued
                simp only [Except.ok.injEq, Prod.mk.injEq] at h
                rw [← h.1, ha, hc, hs]

theorem payoutLoop_covered (env : Env) :
    ∀ (l : List Nat) (s s1 : State) (log log1 : List Transfer),
      payoutLoop env l s log = .ok (s1, log1) → ledgerCovered s →
      (∀ c, listedAt env s l c → 0 < s.rewardMapping c → sharesFit env s c) →
      ledgerCovered s1 := by
  intro l
  induction l with
  | nil =>
    intro s s1 log log1 h hcov _
    simp only [payoutLoop, Except.ok.injEq, Prod.mk.injEq] at h
    rw [← h.1]
    exact hcov
  | cons i rest ih =>
    intro s s1 log log1 h hcov hfit
    simp only [payoutLoop] at h
    cases hrec : env.currentValidatorSet s.validatorSet i with
    | none => simp [hrec, staticCall] at h
    | some r0 =>
      simp only [hrec, staticCall] at h
      have hlisted : ∀ c, listedAt env s rest c → listedAt env s (i :: rest) c := by
        rintro c ⟨j, hj, r, hjr, hrc⟩
        exact ⟨j, List.mem_cons_of_mem _ hj, r, hjr, hrc⟩
      by_cases hpos : s.rewardMapping r0.consensusAddress > 0
      · simp only [hpos, if_true] at h
        cases hto : distributeRewardTo env s r0.consensusAddress with
        | error e => simp [hto] at h
        | ok p =>
          obtain ⟨s2, paid⟩ := p
          simp only [hto] at h
          have hreg2 := distributeRewardTo_registry _ _ _ _ _ hto
          obtain ⟨hled, _, hbal⟩ := distributeRewardTo_ok _ _ _ _ _ hto
          obtain ⟨_, hpaid⟩ := distributeRewardTo_payments _ _ _ _ _ hto
          have hbound := paymentsFor_total_le env s _
            (hfit _ ⟨i, List.mem_cons_self _ _, r0, hrec, rfl⟩ hpos)
          rw [← hpaid] at hbound
          have hreg3 : registry
              { s2 with rewardMapping := Function.update s2.rewardMapping r0.consensusAddress 0 }
              = registry s := hreg2
          apply ih _ _ _ _ h
          · intro F
            simp only
            rw [sum_update_zero, hled]
            have := covered_erase s hcov r0.consensusAddress F
            omega
          · intro c hc hp
            simp only [Function.update_apply] at hp
            split at hp
            · exact absurd hp (by decide)
            · rw [hled] at hp
              exact (sharesFit_congr env s _ c hreg3).2
                (hfit c (hlisted c ((listedAt_congr env s _ rest c hreg3).1 hc)) hp)
      · simp only [hpos, if_false] at h
        exact ih _ _ _ _ h hcov (fun c hc hp => hfit c (hlisted c hc) hp)

/-- C14, as the contract has it.  The accrued amounts are covered by the
balance right after `init` on the deployed contract, and in every state in
which they are covered they stay covered after a successful `addReward`,
`fund` and `AllocateJailValidatorReward`, whatever the collaborators answer,
and after a successful `distributeReward` in which, for every listed validator
with a positive accrued amount, the number in its record and the powers of
its delegators add up to no more than its power. -/
theorem covered_preserved (env : Env) (s : State) (sender v a b c value : Nat) :
    ledgerCovered (init deployed sender a b c).state
      ∧ (ledgerCovered s →
          ((addReward env s sender v value).result = .ok () →
              ledgerCovered (addReward env s sender v value).state)
            ∧ ((fund s sender value).result = .ok () →
                ledgerCovered (fund s sender value).state)
            ∧ ((AllocateJailValidatorReward env s sender v).result = .ok () →
                ledgerCovered (AllocateJailValidatorReward env s sender v).state)
            ∧ ((distributeReward env s sender).result = .ok () →
                (∀ n w, env.validatorSetLength s.validatorSet = some n →
                  listedAt env s (List.range n) w → 0 < s.rewardMapping w →
                  sharesFit env s w) →
                ledgerCovered (distributeReward env s sender).state)) := by
  constructor
  · rw [(init_once deployed sender a b c).1 rfl]
    intro F
    simp [deployed]
  · intro hcov
    refine ⟨?_, ?_, ?_, ?_⟩
    · intro hok
      unfold addReward at hok ⊢
      obtain ⟨s1, log, hbody, hrun⟩ := transact_result_ok _ _ _ hok
      rw [hrun]
      have hs1 := addRewardBody_steps _ _ _ _ _ _ hbody
      intro F
      show F.sum s1.rewardMapping ≤ s1.balance
      rw [hs1]
      show F.sum (Function.update s.rewardMapping v (s.rewardMapping v + value * 90 / 100))
        ≤ s.balance + value
      have h1 := sum_update_add_le s.rewardMapping v (value * 90 / 100) F
      have h2 : F.sum s.rewardMapping ≤ s.balance := hcov F
      have h3 : value * 90 / 100 ≤ value := Nat.div_le_of_le_mul (by omega)
      omega
    · intro hok
      unfold fund at hok ⊢
      obtain ⟨s1, log, hbody, hrun⟩ := transact_result_ok _ _ _ hok
      rw [hrun]
      unfold fundBody at hbody
      split at hbody
      · exact absurd hbody (by simp)
      · simp only [Except.ok.injEq, Prod.mk.injEq] at hbody
        intro F
        show F.sum s1.rewardMapping ≤ s1.balance
        rw [← hbody.1]
        show F.sum s.rewardMapping ≤ s.balance + value
        have h2 : F.sum s.rewardMapping ≤ s.balance := hcov F
        omega
    · intro hok
      unfold AllocateJailValidatorReward at hok ⊢
      obtain ⟨s1, log, hbody, hrun⟩ := transact_result_ok _ _ _ hok
      rw [hrun]
      have hs : ({ s with balance := s.balance + 0 } : State) = s := rfl
      rw [hs] at hbody
      have hbal := (allocateBody_ok _ _ _ _ _ _ hbody).2.2.2.2
      intro F
      have h1 : F.sum s1.rewardMapping ≤ (insert v F).sum s1.rewardMapping :=
        Finset.sum_le_sum_of_subset (Finset.subset_insert v F)
      have h2 := allocateBody_sums _ _ _ _ _ _ hbody (insert v F) (Finset.mem_insert_self v F)
      have h3 : (insert v F).sum s.rewardMapping ≤ s.balance := hcov (insert v F)
      show F.sum s1.rewardMapping ≤ s1.balance
      omega
    · intro hok hfit
      obtain ⟨n, total, s1, hn, _, _, hloop, hstate⟩ := distributeReward_steps env s sender hok
      rw [hstate]
      exact payoutLoop_covered _ _ _ _ _ _ hloop hcov (fun w hw hp => hfit n w hn hw hp)

/-- C14, a concrete case: the accrued amounts are covered in the state right
after `init`, and they still are after 1000 has been added for validator
201 (900 accrued for a balance of 1000). -/
theorem covered_preserved_witness :
    ledgerCovered freshState
      ∧ ledgerCovered (addReward (exampleEnv 1 1 1) freshState 7 201 1000).state :=
  ⟨(covered_preserved (exampleEnv 1 1 1) freshState 7 201 101 102 103 1000).1,
    ((covered_preserved (exampleEnv 1 1 1) freshState 7 201 101 102 103 1000).2
      (covered_preserved (exampleEnv 1 1 1) freshState 7 201 101 102 103 1000).1).1
      (by decide)⟩

/-- C14 fails as stated: 900 is accrued for validator 201 and 900 for validator
202, which is not listed, and the balance is 1800, so the accrued amounts are
covered.  The record of 201 holds the number 2 and its power is 1, so the
successful `distributeReward` pays 201 `2 * 900 / 1 = 1800`; afterwards the
balance is 0 while 900 is still accrued for 202. -/
theorem covered_counterexample :
    ledgerCovered (ledgerState (twoLedger 900 900) 1800)
      ∧ (distributeReward (exampleEnv 1 2 1) (ledgerState (twoLedger 900 900) 1800) 101).result
          = .ok ()
      ∧ ¬ ledgerCovered
          (distributeReward (exampleEnv 1 2 1) (ledgerState (twoLedger 900 900) 1800) 101).state
      := by
  refine ⟨?_, by decide, ?_⟩
  · intro F
    have h := support_sum_le (twoLedger 900 900) {201, 202}
      (by
        intro x hx
        simp only [Finset.mem_insert, Finset.mem_singleton, not_or] at hx
        simp [twoLedger, hx.1, hx.2]) F
    have h2 : ({201, 202} : Finset Address).sum (twoLedger 900 900) = 1800 := by decide
    rw [h2] at h
    exact h
  · intro hcov
    have h := hcov {202}
    rw [Finset.sum_singleton] at h
    have h1 : (distributeReward (exampleEnv 1 2 1)
        (ledgerState (twoLedger 900 900) 1800) 101).state.rewardMapping 202 = 900 := by decide
    have h2 : (distributeReward (exampleEnv 1 2 1)
        (ledgerState (twoLedger 900 900) 1800) 101).state.balance = 0 := by decide
    rw [h1, h2] at h
    exact absurd h (by decide)

end SystemReward


namespace SystemReward

/-! ## C21: the entries a call leaves alone -/

theorem payoutLoop_frame (env : Env) :
    ∀ (l : List Nat) (s s1 : State) (log log1 : List Transfer),
      payoutLoop env l s log = .ok (s1, log1) →
      ∀ a, ¬ listedAt env s l a → s1.rewardMapping a = s.rewardMapping a := by
  intro l
  induction l with
  | nil =>
    intro s s1 log log1 h a _
    simp only [payoutLoop, Except.ok.injEq, Prod.mk.injEq] at h
    rw [h.1]
  | cons i rest ih =>
    intro s s1 log log1 h a hnot
    simp only [payoutLoop] at h
    cases hrec : env.currentValidatorSet s.validatorSet i with
    | none => simp [hrec, staticCall] at h
    | some r0 =>
      simp only [hrec, staticCall] at h
      have hrest : ¬ listedAt env s rest a := by
        rintro ⟨j, hj, r, hjr, hrc⟩
        exact hnot ⟨j, List.mem_cons_of_mem _ hj, r, hjr, hrc⟩
      have hne : a ≠ r0.consensusAddress := by
        intro ha
        exact hnot ⟨i, List.mem_cons_self _ _, r0, hrec, ha.symm⟩
      by_cases hpos : s.rewardMapping r0.consensusAddress > 0
      · simp only [hpos, if_true] at h
        cases hto : distributeRewardTo env s r0.consensusAddress with
        | error e => simp [hto] at h
        | ok p =>
          obtain ⟨s2, paid⟩ := p
          simp only [hto] at h
          have hreg2 := distributeRewardTo_registry _ _ _ _ _ hto
          have hled := (distributeRewardTo_ok _ _ _ _ _ hto).1
          have hreg3 : registry
              { s2 with rewardMapping := Function.update s2.rewardMapping r0.consensusAddress 0 }
              = registry s := hreg2
          have hih := ih _ _ _ _ h a
            (fun hl => hrest ((listedAt_congr env s _ rest a hreg3).1 hl))
          rw [hih]
          show Function.update s2.rewardMapping r0.consensusAddress 0 a = s.rewardMapping a
          rw [Function.update_apply, if_neg hne, hled]
      · simp only [hpos, if_false] at h
        exact ih _ _ _ _ h a hrest

/-- C21: a successful `addReward` for `v` leaves the entry of every other
validator as it is; a successful `distributeReward` leaves the entry of every
validator that the validator set does not list during the call as it is (it
is not set to 0), and none of the payout rounds of the call is for such a
validator (its accrued amount is not paid). -/
theorem ledger_frame (env : Env) (s : State) (sender v value : Nat) :
    ((addReward env s sender v value).result = .ok () →
        ∀ a, a ≠ v → (addReward env s sender v value).state.rewardMapping a
          = s.rewardMapping a)
      ∧ ((distributeReward env s sender).result = .ok () →
          ∀ n a, env.validatorSetLength s.validatorSet = some n →
            ¬ listedAt env s (List.range n) a →
            (distributeReward env s sender).state.rewardMapping a = s.rewardMapping a
              ∧ ∃ order : List Address, a ∉ order
                  ∧ (distributeReward env s sender).transfers
                      = order.flatMap (paymentsFor env s)) := by
  constructor
  · intro hok a ha
    unfold addReward at hok ⊢
    obtain ⟨s1, log, hbody, hrun⟩ := transact_result_ok _ _ _ hok
    rw [hrun]
    have hs1 := addRewardBody_steps _ _ _ _ _ _ hbody
    show s1.rewardMapping a = s.rewardMapping a
    rw [hs1]
    show Function.update s.rewardMapping v (s.rewardMapping v + value * 90 / 100) a
      = s.rewardMapping a
    rw [Function.update_apply, if_neg ha]
  · intro hok n a hlen hnot
    obtain ⟨n1, total, s1, hn, _, _, hloop, hstate⟩ := distributeReward_steps env s sender hok
    rw [hlen] at hn
    cases hn
    constructor
    · rw [hstate]
      exact payoutLoop_frame _ _ _ _ _ _ hloop a hnot
    · obtain ⟨order, _, hmem, _, hlog⟩ := payoutLoop_rounds _ _ _ _ _ _ hloop
      refine ⟨order, ?_, by rw [hlog]; rfl⟩
      intro ha
      exact hnot ((hmem a).1 ha).1

/-- C21, a concrete case: 900 is accrued for validator 201, which is listed,
and 100 for validator 202, which is not.  An `addReward` of 1000 for 201
leaves the 100 of 202; a `distributeReward` pays 201 and sets its entry to 0,
while the 100 of 202 stay in the ledger and are not paid. -/
theorem ledger_frame_witness :
    (addReward (exampleEnv 1 1 1) (ledgerState (twoLedger 900 100) 1000) 7 201 1000).state.rewardMapping
        202 = 100
      ∧ (distributeReward (exampleEnv 1 1 1)
          (ledgerState (twoLedger 900 100) 1000) 101).state.rewardMapping 202 = 100
      ∧ (distributeReward (exampleEnv 1 1 1)
          (ledgerState (twoLedger 900 100) 1000) 101).state.rewardMapping 201 = 0
      ∧ (distributeReward (exampleEnv 1 1 1)
          (ledgerState (twoLedger 900 100) 1000) 101).transfers = [⟨201, 900⟩] := by
  have h := ledger_frame (exampleEnv 1 1 1) (ledgerState (twoLedger 900 100) 1000) 7 201 1000
  have h1 := ledger_frame (exampleEnv 1 1 1) (ledgerState (twoLedger 900 100) 1000) 101 201 0
  have hnot : ¬ listedAt (exampleEnv 1 1 1) (ledgerState (twoLedger 900 100) 1000)
      (List.range 1) 202 := by
    rintro ⟨i, hi, r, hr, hc⟩
    have hi0 : i = 0 := by simpa using hi
    subst hi0
    have hr1 : r = ⟨201, 1, 0, false⟩ := by
      have : (exampleEnv 1 1 1).currentValidatorSet
          (ledgerState (twoLedger 900 100) 1000).validatorSet 0 = some ⟨201, 1, 0, false⟩ := by
        decide
      rw [this] at hr
      exact (Option.some.inj hr).symm
    rw [hr1] at hc
    exact absurd hc (by decide)
  refine ⟨?_, ?_, by decide, by decide⟩
  · rw [h.1 (by decide) 202 (by decide)]
    decide
  · rw [(h1.2 (by decide) 1 202 (by decide) hnot).1]
    decide

end SystemReward

namespace SystemReward

/-! ## C17: a validator with nothing accrued has no payout round -/

end SystemReward

namespace SystemReward

/-! ## A call that succeeds has passed every step -/

theorem checkedMul_fits (a b x : Nat) (h : checkedMul a b = .ok x) :
    a * b ≤ MAX_UINT256 := by
  unfold checkedMul at h
  split at h
  · exact absurd h (by simp)
  · rename_i hnot
    by_cases ha : a = 0
    · rw [ha, Nat.zero_mul]
      exact Nat.zero_le _
    · have hpos : 0 < a := Nat.pos_of_ne_zero ha
      have hb : b ≤ MAX_UINT256 / a := by
        by_contra hgt
        exact hnot ⟨ha, by omega⟩
      have := (Nat.le_div_iff_mul_le hpos).1 hb
      rwa [Nat.mul_comm] at this

theorem checkedAdd_fits (a b x : Nat) (hb : b ≤ MAX_UINT256) (h : checkedAdd a b = .ok x) :
    a + b ≤ MAX_UINT256 := by
  unfold checkedAdd at h
  split at h
  · exact absurd h (by simp)
  · omega

theorem transfer_accepted (env : Env) (s s1 : State) (recipient amount : Nat)
    (h : transfer env s recipient amount = .ok s1) : accepted env ⟨recipient, amount⟩ := by
  unfold transfer at h
  split at h
  · exact absurd h (by simp)
  · split at h
    · exact absurd h (by simp)
    · rename_i hself
      split at h
      · exact absurd h (by simp)
      · rename_i hacc
        exact ⟨hself, by simpa using hacc⟩

theorem transact_not_ok (s : State) (value : Nat)
    (body : State → Except Error (State × List Transfer))
    (h : (transact s value body).result ≠ .ok ()) :
    ∃ e, transact s value body = ⟨.error e, s, []⟩ := by
  cases hb : body { s with balance := s.balance + value } with
  | error e => exact ⟨e, transact_error _ _ _ _ hb⟩
  | ok p =>
    obtain ⟨s1, log⟩ := p
    rw [transact_ok _ _ _ _ _ hb] at h
    exact absurd rfl h

theorem productsFit_congr (env : Env) (s s1 : State) (v : Address)
    (hreg : registry s1 = registry s) (hledger : s1.rewardMapping v = s.rewardMapping v) :
    productsFit env s1 v ↔ productsFit env s v := by
  obtain ⟨h1, h2, h3⟩ := registry_fields _ _ hreg
  simp only [productsFit, stakeOf, recordOf, powerOf, delegatorsOf, delegatorPowerOf,
    h1, h2, h3, hledger]

theorem payDelegators_checked (env : Env) (v totalPower : Nat) :
    ∀ (l : List Address) (s s1 : State) (log log1 : List Transfer),
      payDelegators env v totalPower l s log = .ok (s1, log1) →
      (∀ d ∈ l, delegatorPowerOf env s d v * s.rewardMapping v ≤ MAX_UINT256)
        ∧ ((∀ t ∈ log, accepted env t) → ∀ t ∈ log1, accepted env t) := by
  intro l
  induction l with
  | nil =>
    intro s s1 log log1 h
    simp only [payDelegators, Except.ok.injEq, Prod.mk.injEq] at h
    refine ⟨by simp, ?_⟩
    rw [← h.2]
    exact id
  | cons d rest ih =>
    intro s s1 log log1 h
    simp only [payDelegators] at h
    split at h
    · exact absurd h (by simp)
    · rename_i power hpower
      split at h
      · exact absurd h (by simp)
      · rename_i scaled hscaled
        split at h
        · exact absurd h (by simp)
        · rename_i amount hamount
          split at h
          · exact absurd h (by simp)
          · rename_i s2 htransfer
            have hp := staticCall_eq_ok _ _ hpower
            have hfit := checkedMul_fits _ _ _ hscaled
            have hacc := transfer_accepted _ _ _ _ _ htransfer
            obtain ⟨hreg, hledger⟩ := transfer_registry _ _ _ _ _ htransfer
            have hpool := (registry_fields _ _ hreg).2.1
            obtain ⟨hfits, hlog⟩ := ih _ _ _ _ h
            constructor
            · intro d1 hd1
              rcases List.mem_cons.1 hd1 with h1 | h1
              · rw [h1]
                simpa [delegatorPowerOf, hp] using hfit
              · have := hfits d1 h1
                simpa [delegatorPowerOf, hpool, hledger] using this
            · intro hall
              apply hlog
              intro t ht
              rcases List.mem_append.1 ht with h1 | h1
              · exact hall t h1
              · rw [List.mem_singleton.1 h1]
                exact hacc

theorem distributeRewardTo_checked (env : Env) (s s1 : State) (v : Address)
    (paid : List Transfer) (h : distributeRewardTo env s v = .ok (s1, paid)) :
    productsFit env s v ∧ ∀ t ∈ paid, accepted env t := by
  unfold distributeRewardTo at h
  split at h
  · exact absurd h (by simp)
  · split at h
    · exact absurd h (by simp)
    · rename_i index hindex
      split at h
      · exact absurd h (by simp)
      · rename_i position hposition
        split at h
        · exact absurd h (by simp)
        · rename_i r hr
          split at h
          · exact absurd h (by simp)
          · rename_i totalPower hpower
            split at h
            · exact absurd h (by simp)
            · rename_i scaled hscaled
              split at h
              · exact absurd h (by simp)
              · rename_i amount hamount
                split at h
                · exact absurd h (by simp)
                · rename_i s2 htransfer
                  split at h
                  · exact absurd h (by simp)
                  · rename_i delegators hdelegators
                    have hi := staticCall_eq_ok _ _ hindex
                    obtain ⟨hpos, hle⟩ := checkedSub_eq_ok _ _ _ hposition
                    have hrec := staticCall_eq_ok _ _ hr
                    have hfit := checkedMul_fits _ _ _ hscaled
                    have hacc := transfer_accepted _ _ _ _ _ htransfer
                    have hds := staticCall_eq_ok _ _ hdelegators
                    obtain ⟨hreg, hledger⟩ := transfer_registry _ _ _ _ _ htransfer
                    have hpool := (registry_fields _ _ hreg).2.1
                    obtain ⟨hfits, hlog⟩ := payDelegators_checked _ _ _ _ _ _ _ _ h
                    have hrecord : recordOf env s v = some r := by
                      simp [recordOf, hi, ← hpos, hrec]
                    refine ⟨⟨?_, ?_⟩, ?_⟩
                    · simpa [stakeOf, hrecord] using hfit
                    · intro d hd
                      have hd1 : d ∈ delegators := by
                        simpa [delegatorsOf, hds] using hd
                      have := hfits d hd1
                      simpa [delegatorPowerOf, hpool, hledger] using this
                    · apply hlog
                      intro t ht
                      rw [List.mem_singleton.1 ht]
                      exact hacc

theorem payoutLoop_checked (env : Env) :
    ∀ (l : List Nat) (s s1 : State) (log log1 : List Transfer),
      payoutLoop env l s log = .ok (s1, log1) →
      ((∀ t ∈ log, accepted env t) → ∀ t ∈ log1, accepted env t)
        ∧ (∀ i ∈ l, (env.currentValidatorSet s.validatorSet i).isSome = true)
        ∧ ∀ c, listedAt env s l c → 0 < s.rewardMapping c → productsFit env s c := by
  intro l
  induction l with
  | nil =>
    intro s s1 log log1 h
    simp only [payoutLoop, Except.ok.injEq, Prod.mk.injEq] at h
    refine ⟨?_, by simp, ?_⟩
    · rw [← h.2]
      exact id
    · rintro c ⟨i, hi, _⟩
      exact absurd hi (List.not_mem_nil i)
  | cons i rest ih =>
    intro s s1 log log1 h
    simp only [payoutLoop] at h
    cases hrec : env.currentValidatorSet s.validatorSet i with
    | none => simp [hrec, staticCall] at h
    | some r0 =>
      simp only [hrec, staticCall] at h
      by_cases hpos : s.rewardMapping r0.consensusAddress > 0
      · simp only [hpos, if_true] at h
        cases hto : distributeRewardTo env s r0.consensusAddress with
        | error e => simp [hto] at h
        | ok p =>
          obtain ⟨s2, paid⟩ := p
          simp only [hto] at h
          have hreg2 := distributeRewardTo_registry _ _ _ _ _ hto
          have hled := (distributeRewardTo_ok _ _ _ _ _ hto).1
          obtain ⟨hfit, hpaid⟩ := distributeRewardTo_checked _ _ _ _ _ hto
          obtain ⟨hlog, hsome, hfits⟩ := ih _ _ _ _ h
          have hreg3 : registry
              { s2 with rewardMapping := Function.update s2.rewardMapping r0.consensusAddress 0 }
              = registry s := hreg2
          have hset := (registry_fields _ _ hreg3).1
          refine ⟨?_, ?_, ?_⟩
          · intro hall
            apply hlog
            intro t ht
            rcases List.mem_append.1 ht with h1 | h1
            · exact hall t h1
            · exact hpaid t h1
          · intro j hj
            rcases List.mem_cons.1 hj with h1 | h1
            · rw [h1, hrec]; rfl
            · have := hsome j h1
              rwa [hset] at this
          · intro c hc hposc
            by_cases hcc : c = r0.consensusAddress
            · rw [hcc]
              exact hfit
            · have hledger : (Function.update s2.rewardMapping r0.consensusAddress 0) c
                  = s.rewardMapping c := by
                rw [Function.update_apply, if_neg hcc, hled]
              obtain ⟨j, hj, r, hjr, hrc⟩ := hc
              have hrest : listedAt env s rest c := by
                rcases List.mem_cons.1 hj with h1 | h1
                · rw [h1, hrec] at hjr
                  cases hjr
                  exact absurd hrc.symm hcc
                · exact ⟨j, h1, r, hjr, hrc⟩
              have h1 := hfits c ((listedAt_congr env s _ rest c hreg3).2 hrest)
                (by simp only; rw [hledger]; exact hposc)
              exact (productsFit_congr env s _ c hreg3 hledger).1 h1
      · simp only [hpos, if_false] at h
        obtain ⟨hlog, hsome, hfits⟩ := ih _ _ _ _ h
        refine ⟨hlog, ?_, ?_⟩
        · intro j hj
          rcases List.mem_cons.1 hj with h1 | h1
          · rw [h1, hrec]; rfl
          · exact hsome j h1
        · rintro c ⟨j, hj, r, hjr, hrc⟩ hposc
          apply hfits c ?_ hposc
          rcases List.mem_cons.1 hj with h1 | h1
          · rw [h1, hrec] at hjr
            cases hjr
            rw [hrc] at hpos
            exact absurd hposc hpos
          · exact ⟨j, h1, r, hjr, hrc⟩

end SystemReward

namespace SystemReward

theorem creditActive_checked (env : Env) (reward totalPower : Nat) :
    ∀ (l : List Nat) (s s1 : State), creditActive env reward totalPower l s = .ok s1 →
      (∀ r ∈ activeRecords env s l,
          (env.getTotalPowerExcludeUnbonding s.validatorPool r.consensusAddress).isSome = true
            ∧ totalPower ≠ 0
            ∧ reward * powerOf env s r.consensusAddress ≤ MAX_UINT256)
        ∧ ∀ a, s1.rewardMapping a ≤ MAX_UINT256 ∨ s1.rewardMapping a = s.rewardMapping a := by
  intro l
  induction l with
  | nil =>
    intro s s1 h
    simp only [creditActive, Except.ok.injEq] at h
    refine ⟨by simp [activeRecords], ?_⟩
    intro a
    right
    rw [h]
  | cons i rest ih =>
    intro s s1 h
    simp only [creditActive] at h
    split at h
    · exact absurd h (by simp)
    · rename_i r hr
      have hrec := staticCall_eq_ok _ _ hr
      have hcons := activeRecords_cons env s i rest r hrec
      split at h
      · rename_i hj
        rw [hcons, if_pos hj]
        exact ih _ _ h
      · rename_i hj
        split at h
        · exact absurd h (by simp)
        · rename_i power hpower
          split at h
          · exact absurd h (by simp)
          · rename_i scaled hscaled
            split at h
            · exact absurd h (by simp)
            · rename_i share hshare
              split at h
              · exact absurd h (by simp)
              · rename_i accrued haccrued
                have hp := staticCall_eq_ok _ _ hpower
                have hs := checkedMul_eq_ok _ _ _ hscaled
                have hfit := checkedMul_fits _ _ _ hscaled
                obtain ⟨hsh, hne⟩ := checkedDiv_eq_ok _ _ _ hshare
                have hacc := checkedAdd_eq_ok _ _ _ haccrued
                have hshare_le : share ≤ MAX_UINT256 := by
                  rw [hsh, hs]
                  exact le_trans (Nat.div_le_self _ _) hfit
                have haccfit := checkedAdd_fits _ _ _ hshare_le haccrued
                obtain ⟨hrest, hled⟩ := ih _ _ h
                change (∀ r1 ∈ activeRecords env s rest,
                  (env.getTotalPowerExcludeUnbonding s.validatorPool r1.consensusAddress).isSome
                      = true
                    ∧ totalPower ≠ 0
                    ∧ reward * powerOf env s r1.consensusAddress ≤ MAX_UINT256) at hrest
                constructor
                · rw [hcons, if_neg hj]
                  intro r1 hr1
                  rcases List.mem_cons.1 hr1 with h1 | h1
                  · rw [h1]
                    refine ⟨by rw [hp]; rfl, hne, ?_⟩
                    simpa [powerOf, hp] using hfit
                  · exact hrest r1 h1
                · intro a
                  rcases hled a with h1 | h1
                  · exact Or.inl h1
                  · simp only [Function.update_apply] at h1
                    by_cases ha : a = r.consensusAddress
                    · left
                      rw [h1, if_pos ha, hacc]
                      exact haccfit
                    · right
                      rw [h1, if_neg ha]

theorem sumAccrued_records (env : Env) (s : State) :
    ∀ (l : List Nat) (t total : Nat), sumAccrued env s l t = .ok total →
      ∀ i ∈ l, (env.currentValidatorSet s.validatorSet i).isSome = true := by
  intro l
  induction l with
  | nil =>
    intro t total _ i hi
    exact absurd hi (List.not_mem_nil i)
  | cons j rest ih =>
    intro t total h i hi
    simp only [sumAccrued] at h
    split at h
    · exact absurd h (by simp)
    · rename_i r hr
      split at h
      · exact absurd h (by simp)
      · rcases List.mem_cons.1 hi with h1 | h1
        · rw [h1, staticCall_eq_ok _ _ hr]; rfl
        · exact ih _ _ h i h1

theorem initBody_checked (a b c : Address) (s s1 : State) (log : List Transfer)
    (h : initBody a b c s = .ok (s1, log)) : s.alreadyInit = false := by
  unfold initBody at h
  split at h
  · exact absurd h (by simp)
  · rename_i hinit
    simpa using hinit

theorem fundBody_checked (s s1 : State) (log : List Transfer)
    (h : fundBody s = .ok (s1, log)) : s.alreadyInit = true := by
  unfold fundBody at h
  split at h
  · exact absurd h (by simp)
  · rename_i hinit
    simpa using hinit

theorem addRewardBody_checked (env : Env) (value v : Nat) (s s1 : State)
    (log : List Transfer) (h : addRewardBody env value v s = .ok (s1, log)) :
    s.alreadyInit = true
      ∧ (∃ index, env.currentValidatorSetMap s.validatorSet v = some index ∧ 0 < index)
      ∧ 0 < value ∧ value * 90 ≤ MAX_UINT256
      ∧ s.rewardMapping v + value * 90 / 100 ≤ MAX_UINT256 := by
  unfold addRewardBody at h
  split at h
  · exact absurd h (by simp)
  · rename_i hinit
    split at h
    · exact absurd h (by simp)
    · rename_i index hindex
      split at h
      · exact absurd h (by simp)
      · rename_i hactive
        split at h
        · exact absurd h (by simp)
        · rename_i hvalue
          split at h
          · exact absurd h (by simp)
          · rename_i scaled hscaled
            split at h
            · exact absurd h (by simp)
            · rename_i credit hcredit
              split at h
              · exact absurd h (by simp)
              · rename_i accrued haccrued
                have hs := checkedMul_eq_ok _ _ _ hscaled
                have hfit := checkedMul_fits _ _ _ hscaled
                have hc := (checkedDiv_eq_ok _ _ _ hcredit).1
                have hcredit_le : credit ≤ MAX_UINT256 := by
                  rw [hc, hs]
                  exact le_trans (Nat.div_le_self _ _) hfit
                have hadd := checkedAdd_fits _ _ _ hcredit_le haccrued
                rw [hc, hs] at hadd
                refine ⟨by simpa using hinit, ⟨index, staticCall_eq_ok _ _ hindex, ?_⟩, ?_,
                  hfit, hadd⟩
                · exact Nat.pos_of_ne_zero (by simpa using hactive)
                · exact Nat.pos_of_ne_zero (by simpa using hvalue)

theorem allocateBody_checked (env : Env) (sender v : Address) (s s1 : State)
    (log : List Transfer)
    (h : AllocateJailValidatorRewardBody env sender v s = .ok (s1, log)) :
    s.alreadyInit = true ∧ sender = s.BKCValidatorSetAddress
      ∧ s.rewardMapping v * 90 ≤ MAX_UINT256
      ∧ ∃ n totalPower, env.validatorSetLength s.validatorSet = some n
          ∧ sumActivePower env s (List.range n) 0 = .ok totalPower
          ∧ (∀ i ∈ List.range n, (env.currentValidatorSet s.validatorSet i).isSome = true)
          ∧ (∀ r ∈ activeRecords env s (List.range n),
              (env.getTotalPowerExcludeUnbonding s.validatorPool r.consensusAddress).isSome
                  = true
                ∧ totalPower ≠ 0
                ∧ s.rewardMapping v * 90 / 100 * powerOf env s r.consensusAddress
                    ≤ MAX_UINT256)
          ∧ ∀ a, s.rewardMapping a
                + creditFor env s (s.rewardMapping v * 90 / 100) totalPower (List.range n) a
                ≤ MAX_UINT256
              ∨ creditFor env s (s.rewardMapping v * 90 / 100) totalPower (List.range n) a
                = 0 := by
  obtain ⟨hinit, hsender, _⟩ := allocateBody_ok _ _ _ _ _ _ h
  obtain ⟨n, totalPower, s2, hn, htotal, hcredit, _⟩ := allocateBody_steps _ _ _ _ _ _ h
  have hsome := (sumActivePower_eq _ _ _ _ _ htotal).1
  obtain ⟨hsteps, hfits⟩ := creditActive_checked _ _ _ _ _ _ hcredit
  have hledger := creditActive_ledger _ _ _ _ _ _ hcredit
  refine ⟨hinit, hsender, ?_, n, totalPower, hn, htotal, hsome, hsteps, ?_⟩
  · unfold AllocateJailValidatorRewardBody at h
    split at h
    · exact absurd h (by simp)
    · split at h
      · exact absurd h (by simp)
      · split at h
        · exact absurd h (by simp)
        · split at h
          · exact absurd h (by simp)
          · split at h
            · exact absurd h (by simp)
            · rename_i scaled hscaled
              exact checkedMul_fits _ _ _ hscaled
  · intro a
    have h1 := hledger a
    rcases hfits a with h2 | h2
    · left
      rw [← h1]
      exact h2
    · right
      omega

theorem distributeRewardBody_guards (env : Env) (sender : Address) (s s1 : State)
    (log : List Transfer) (h : distributeRewardBody env sender s = .ok (s1, log)) :
    s.alreadyInit = true ∧ sender = s.BKCValidatorSetAddress := by
  unfold distributeRewardBody at h
  split at h
  · exact absurd h (by simp)
  · rename_i hinit
    split at h
    · exact absurd h (by simp)
    · rename_i hsender
      exact ⟨by simpa using hinit, by simpa using hsender⟩

theorem distributeReward_checked (env : Env) (s : State) (sender : Address)
    (hok : (distributeReward env s sender).result = .ok ()) :
    s.alreadyInit = true ∧ sender = s.BKCValidatorSetAddress
      ∧ (∀ t ∈ (distributeReward env s sender).transfers, accepted env t)
      ∧ totalPaid (distributeReward env s sender).transfers ≤ s.balance
      ∧ ∃ n total, env.validatorSetLength s.validatorSet = some n
          ∧ sumAccrued env s (List.range n) 0 = .ok total ∧ total ≤ s.balance
          ∧ (∀ i ∈ List.range n, (env.currentValidatorSet s.validatorSet i).isSome = true)
          ∧ ∀ w, listedAt env s (List.range n) w → 0 < s.rewardMapping w →
              answersFor env s w ∧ productsFit env s w
                ∧ ∀ t ∈ paymentsFor env s w,
                    t ∈ (distributeReward env s sender).transfers := by
  obtain ⟨n, total, s1, hn, hsum, hle, hloop, _⟩ := distributeReward_steps env s sender hok
  obtain ⟨s2, log, hbody, _⟩ := transact_result_ok _ _ _ hok
  obtain ⟨hinit, hsender⟩ := distributeRewardBody_guards _ _ _ _ _ hbody
  obtain ⟨hacc, _, hfits⟩ := payoutLoop_checked _ _ _ _ _ _ hloop
  obtain ⟨order, _, hmem, hans, hlog⟩ := payoutLoop_rounds _ _ _ _ _ _ hloop
  have hbal := (payoutLoop_ok _ _ _ _ _ _ hloop).1
  refine ⟨hinit, hsender, ?_, ?_, n, total, hn, hsum, hle,
    sumAccrued_records _ _ _ _ _ hsum, ?_⟩
  · exact hacc (by simp)
  · simp only [totalPaid, List.map_nil, List.sum_nil, Nat.add_zero] at hbal
    simp only [totalPaid]
    omega
  · intro w hw hpos
    have hin := (hmem w).2 ⟨hw, hpos⟩
    refine ⟨hans w hin, hfits w hw hpos, ?_⟩
    intro t ht
    rw [hlog, List.nil_append]
    exact List.mem_flatMap.2 ⟨w, hin, ht⟩

end SystemReward

namespace SystemReward

/-! ## C12: a failing step fails the call, and a failed call changes nothing -/

/-- C12: whichever of `init`, `addReward`, `fund`, `distributeReward` and
`AllocateJailValidatorReward` fails, in whatever state, for whatever sender,
argument and attached value, the state after the call is the state before it
and no payment has been made (the first five parts).  And no failing step is
passed over: a call succeeds only when every one of its steps went through.
For `init` the flag was not set; for `fund` it was.  For `addReward` the flag
was set, the validator set reported a positive index, the value was positive
and neither the product with 90 nor the new accrued amount exceeded a word.
For `AllocateJailValidatorReward` the flag was set, the sender was the
validator set, the validator set answered for its length and every record, the
validator pool answered for every unflagged record, the total power was not 0
when there was such a record, and no product or credited entry exceeded a
word.  For `distributeReward` the flag was set, the sender was the validator
set, every record was answered, the accrued amounts added up to no more than
the balance, the payments made add up to no more than the balance, every
payment was taken by a recipient other than the contract, and for every listed
validator with a positive accrued amount every collaborator answered, the
power was not 0, the products fit in a word and every payment of its round
was made.  Hence (the last two parts) when a recipient turns down one payment
of one round of the payout loop, or a collaborator does not answer for one
round, or the power is 0 or a product overflows there, the whole call fails
and leaves the state as it was, whatever the rounds before it had paid. -/
theorem failure_rolls_back (env : Env) (s : State) (sender v a b c value : Nat)
    (e : Error) :
    ((init s sender a b c).result = .error e →
        (init s sender a b c).state = s ∧ (init s sender a b c).transfers = [])
      ∧ ((addReward env s sender v value).result = .error e →
          (addReward env s sender v value).state = s
            ∧ (addReward env s sender v value).transfers = [])
      ∧ ((fund s sender value).result = .error e →
          (fund s sender value).state = s ∧ (fund s sender value).transfers = [])
      ∧ ((distributeReward env s sender).result = .error e →
          (distributeReward env s sender).state = s
            ∧ (distributeReward env s sender).transfers = [])
      ∧ ((AllocateJailValidatorReward env s sender v).result = .error e →
          (AllocateJailValidatorReward env s sender v).state = s
            ∧ (AllocateJailValidatorReward env s sender v).transfers = [])
      ∧ ((init s sender a b c).result = .ok () → s.alreadyInit = false)
      ∧ ((fund s sender value).result = .ok () → s.alreadyInit = true)
      ∧ ((addReward env s sender v value).result = .ok () →
          s.alreadyInit = true
            ∧ (∃ index, env.currentValidatorSetMap s.validatorSet v = some index ∧ 0 < index)
            ∧ 0 < value ∧ value * 90 ≤ MAX_UINT256
            ∧ s.rewardMapping v + value * 90 / 100 ≤ MAX_UINT256)
      ∧ ((AllocateJailValidatorReward env s sender v).result = .ok () →
          s.alreadyInit = true ∧ sender = s.BKCValidatorSetAddress
            ∧ s.rewardMapping v * 90 ≤ MAX_UINT256
            ∧ ∃ n totalPower, env.validatorSetLength s.validatorSet = some n
                ∧ sumActivePower env s (List.range n) 0 = .ok totalPower
                ∧ (∀ i ∈ List.range n,
                    (env.currentValidatorSet s.validatorSet i).isSome = true)
                ∧ (∀ r ∈ activeRecords env s (List.range n),
                    (env.getTotalPowerExcludeUnbonding s.validatorPool
                        r.consensusAddress).isSome = true
                      ∧ totalPower ≠ 0
                      ∧ s.rewardMapping v * 90 / 100 * powerOf env s r.consensusAddress
                          ≤ MAX_UINT256)
                ∧ ∀ x, s.rewardMapping x
                      + creditFor env s (s.rewardMapping v * 90 / 100) totalPower
                          (List.range n) x ≤ MAX_UINT256
                    ∨ creditFor env s (s.rewardMapping v * 90 / 100) totalPower
                        (List.range n) x = 0)
      ∧ ((distributeReward env s sender).result = .ok () →
          s.alreadyInit = true ∧ sender = s.BKCValidatorSetAddress
            ∧ (∀ t ∈ (distributeReward env s sender).transfers, accepted env t)
            ∧ totalPaid (distributeReward env s sender).transfers ≤ s.balance
            ∧ ∃ n total, env.validatorSetLength s.validatorSet = some n
                ∧ sumAccrued env s (List.range n) 0 = .ok total ∧ total ≤ s.balance
                ∧ (∀ i ∈ List.range n,
                    (env.currentValidatorSet s.validatorSet i).isSome = true)
                ∧ ∀ w, listedAt env s (List.range n) w → 0 < s.rewardMapping w →
                    answersFor env s w ∧ productsFit env s w
                      ∧ ∀ t ∈ paymentsFor env s w,
                          t ∈ (distributeReward env s sender).transfers)
      ∧ (∀ n w t, env.validatorSetLength s.validatorSet = some n →
          listedAt env s (List.range n) w → 0 < s.rewardMapping w →
          t ∈ paymentsFor env s w → ¬ accepted env t →
          ∃ e1, distributeReward env s sender = ⟨.error e1, s, []⟩)
      ∧ (∀ n w, env.validatorSetLength s.validatorSet = some n →
          listedAt env s (List.range n) w → 0 < s.rewardMapping w →
          ¬ (answersFor env s w ∧ productsFit env s w) →
          ∃ e1, distributeReward env s sender = ⟨.error e1, s, []⟩) := by
  refine ⟨transact_failed _ _ _ e, transact_failed _ _ _ e, transact_failed _ _ _ e,
    transact_failed _ _ _ e, transact_failed _ _ _ e, ?_, ?_, ?_, ?_, ?_, ?_, ?_⟩
  · intro hok
    obtain ⟨s1, log, hbody, _⟩ := transact_result_ok _ _ _ hok
    exact initBody_checked _ _ _ _ _ _ hbody
  · intro hok
    obtain ⟨s1, log, hbody, _⟩ := transact_result_ok _ _ _ hok
    have h1 := fundBody_checked _ _ _ hbody
    exact h1
  · intro hok
    obtain ⟨s1, log, hbody, _⟩ := transact_result_ok _ _ _ hok
    have h1 := addRewardBody_checked _ _ _ _ _ _ hbody
    exact h1
  · intro hok
    obtain ⟨s1, log, hbody, _⟩ := transact_result_ok _ _ _ hok
    exact allocateBody_checked _ _ _ _ _ _ hbody
  · exact distributeReward_checked env s sender
  · intro n w t hn hw hpos ht hnot
    by_cases hok : (distributeReward env s sender).result = .ok ()
    · obtain ⟨_, _, hacc, _, n1, total, hn1, _, _, _, hall⟩ :=
        distributeReward_checked env s sender hok
      rw [hn] at hn1
      cases hn1
      exact absurd (hacc t ((hall w hw hpos).2.2 t ht)) hnot
    · exact transact_not_ok _ _ _ hok
  · intro n w hn hw hpos hnot
    by_cases hok : (distributeReward env s sender).result = .ok ()
    · obtain ⟨_, _, _, _, n1, total, hn1, _, _, _, hall⟩ :=
        distributeReward_checked env s sender hok
      rw [hn] at hn1
      cases hn1
      exact absurd ⟨(hall w hw hpos).1, (hall w hw hpos).2.1⟩ hnot
    · exact transact_not_ok _ _ _ hok

/-- C12, two concrete cases.  With 900 accrued for validator 201 and 100 for
validator 202 and a balance of 1000, validator 201 and its delegators are
paid, then validator 202 turns its payment of 100 down: the call fails with
the failure of the payment, and the ledger entries, the balance and the rest
of the state are as before.  With 900 accrued for validator 201 and the power
0 reported for it, the division in its round faults: the call fails with the
panic of a division by zero and the state is as before. -/
theorem failure_rolls_back_witness :
    ((distributeReward (delegatedWorld [202])
        (ledgerState (twoLedger 900 100) 1000) 101).result = .error .TransferFailed
      ∧ (distributeReward (delegatedWorld [202])
          (ledgerState (twoLedger 900 100) 1000) 101).state.rewardMapping 201 = 900
      ∧ (distributeReward (delegatedWorld [202])
          (ledgerState (twoLedger 900 100) 1000) 101).state.balance = 1000
      ∧ (distributeReward (delegatedWorld [202])
          (ledgerState (twoLedger 900 100) 1000) 101).transfers = [])
      ∧ (payoutLoop (delegatedWorld [202]) [0] (ledgerState (twoLedger 900 100) 1000) []).toOption.map
          (fun p => (p.2, p.1.balance))
          = some ([⟨201, 450⟩, ⟨301, 300⟩, ⟨302, 150⟩], 100)
      ∧ (∃ e1, distributeReward (delegatedWorld [202])
            (ledgerState (twoLedger 900 100) 1000) 101
          = ⟨.error e1, ledgerState (twoLedger 900 100) 1000, []⟩)
      ∧ (distributeReward (exampleEnv 1 1 0) (exampleState 900 1000) 101).result
          = .error (.Panic 0x12)
      ∧ (∃ e1, distributeReward (exampleEnv 1 1 0) (exampleState 900 1000) 101
          = ⟨.error e1, exampleState 900 1000, []⟩) := by
  have h := failure_rolls_back (delegatedWorld [202])
    (ledgerState (twoLedger 900 100) 1000) 101 0 0 0 0 0 .TransferFailed
  have h1 := h.2.2.2.1 (by decide)
  have h2 := h.2.2.2.2.2.2.2.2.2.2.1 2 202 ⟨202, 100⟩ (by decide)
    ⟨1, by decide, ⟨202, 1, 0, false⟩, by decide, rfl⟩ (by decide) (by decide)
    (fun hacc => absurd hacc.2 (by decide))
  have h3 := (failure_rolls_back (exampleEnv 1 1 0) (exampleState 900 1000) 101 0 0 0 0 0
    (.Panic 0x12)).2.2.2.2.2.2.2.2.2.2.2 1 201 (by decide)
    ⟨0, by decide, ⟨201, 1, 0, false⟩, by decide, rfl⟩ (by decide)
    (fun hans => hans.1.2.2.2.1 (by decide))
  refine ⟨⟨by decide, ?_, ?_, h1.2⟩, by decide, h2, by decide, h3⟩
  · rw [h1.1]
    decide
  · rw [h1.1]
    decide

end SystemReward
